import Mathlib

/-!
Verification development for the SIL code-motion optimization pass
(`lib/SILPasses/SILCodeMotion.cpp`) and the capture-list accessor
(`lib/AST/CaptureInfo.cpp`).

The IR graph abstraction (functions, blocks, instructions, values, use
lists) is an external collaborator of the pass; it is embedded here as a
purely functional data model: a function is a list of blocks, a block is a
list of instructions plus a terminator, and every mutation of the C++ code
(move-before, erase, replace-all-uses-with) becomes a function from
functions to functions.  Use lists are derived: a use of a value is an
operand slot holding it, and `use_empty` / `hasOneUse` count those slots.
The alias oracle (`canDecrementRefCount` of SILAnalysis/ARCAnalysis, not in
this repository slice) is a boolean-valued parameter, exactly as the spec
describes the collaborator interface.
-/

namespace SILModel

/-- Modelled from the spec: `EnumElementDecl` of the AST collaborator, as the
pass consumes it — an identity plus the `hasArgumentType` (payload) flag. -/
structure EnumElt where
  eid : Nat
  hasArg : Bool
  deriving DecidableEq, Repr

/-- A SIL value: undef, the `idx`-th argument of block `bid`, or the result of
the instruction with identity `iid`. -/
inductive SILValue where
  | undef
  | arg (bid idx : Nat)
  | res (iid : Nat)
  deriving DecidableEq, Repr

/-- Instruction kinds the pass distinguishes (by `isa` downcasts): a generic
instruction with a side-effect flag, an apply of a builtin function ref with
the collaborator judgement `isSideEffectFree`, the reference-count
instructions, and the payload projection `unchecked_enum_data`. -/
inductive InstKind where
  | generic (opcode : Nat) (sideEffects : Bool)
  | applyBuiltin (callee : Nat) (sideEffectFree : Bool)
  | retainValue
  | releaseValue
  | strongRetain
  | uncheckedEnumData (eid : Nat)
  deriving DecidableEq, Repr

/-- A non-terminator SIL instruction: identity, kind, operand list. -/
structure SILInstruction where
  iid : Nat
  kind : InstKind
  ops : List SILValue
  deriving DecidableEq, Repr

/-- Terminators relevant to the pass: branch, conditional branch, sum-type
dispatch (`switch_enum`), `checked_cast_br`, and return (a terminator with no
successors, standing for every other terminator kind). -/
inductive TermInst where
  | br (dest : Nat) (args : List SILValue)
  | condBr (cond : SILValue) (tdest : Nat) (targs : List SILValue)
      (fdest : Nat) (fargs : List SILValue)
  | switchEnum (scrut : SILValue) (cases : List (EnumElt × Nat))
  | checkedCastBr (op : SILValue) (sdest fdest : Nat)
  | ret (v : SILValue)
  deriving DecidableEq, Repr

/-- A basic block: identity, number of block arguments, instruction list,
terminator. -/
structure SILBasicBlock where
  bid : Nat
  nargs : Nat
  insts : List SILInstruction
  term : TermInst
  deriving DecidableEq, Repr

/-- A SIL function: its blocks, plus the next fresh instruction identity
(the builder's allocation counter). -/
structure SILFunction where
  blocks : List SILBasicBlock
  nextId : Nat
  deriving DecidableEq, Repr

/-- The operand list of a terminator, in SIL operand order (a conditional
branch lists its condition first, then the true-edge and false-edge
arguments; a `switch_enum` has only its scrutinee). -/
def termOperands : TermInst → List SILValue
  | TermInst.br _ args => args
  | TermInst.condBr c _ ta _ fa => c :: (ta ++ fa)
  | TermInst.switchEnum s _ => [s]
  | TermInst.checkedCastBr o _ _ => [o]
  | TermInst.ret v => [v]

/-- `TermInst::getOperand(n)`. -/
def getTermOperand (t : TermInst) (n : Nat) : SILValue :=
  (termOperands t).getD n SILValue.undef

/-- Successor block identities of a terminator. -/
def termSuccs : TermInst → List Nat
  | TermInst.br d _ => [d]
  | TermInst.condBr _ td _ fd _ => [td, fd]
  | TermInst.switchEnum _ cs => cs.map Prod.snd
  | TermInst.checkedCastBr _ sd fd => [sd, fd]
  | TermInst.ret _ => []

/-- Look a block up by identity. -/
def blk (f : SILFunction) (bid : Nat) : Option SILBasicBlock :=
  f.blocks.find? (fun b => b.bid == bid)

/-- Predecessor blocks of `bid` (blocks with an edge to `bid`), in function
order. -/
def preds (f : SILFunction) (bid : Nat) : List SILBasicBlock :=
  f.blocks.filter (fun b => (termSuccs b.term).contains bid)

/-- Number of predecessor edges of `bid`, counted with multiplicity: this is
what the predecessor use-list of a C++ block enumerates, so
`getSinglePredecessor` succeeds exactly when this count is 1. -/
def predEdges (f : SILFunction) (bid : Nat) : Nat :=
  (f.blocks.map (fun b => (termSuccs b.term).count bid)).sum

/-- `SILBasicBlock::getSingleSuccessor`. -/
def getSingleSuccessor (b : SILBasicBlock) : Option Nat :=
  match termSuccs b.term with
  | [s] => some s
  | _ => none

/-- Operand slots of a list of instructions. -/
def instSlots (is : List SILInstruction) : List SILValue :=
  (is.map SILInstruction.ops).flatten

/-- All operand slots of a block (instructions, then terminator). -/
def blockSlots (b : SILBasicBlock) : List SILValue :=
  instSlots b.insts ++ termOperands b.term

/-- All operand slots of a function: the use-list universe. -/
def operandSlots (f : SILFunction) : List SILValue :=
  (f.blocks.map blockSlots).flatten

/-- Number of uses of a value: operand slots holding it.  `use_empty` is
count 0, `hasOneUse` is count 1. -/
def countUses (f : SILFunction) (v : SILValue) : Nat :=
  (operandSlots f).count v

/-- Find the instruction with identity `iid`. -/
def findInst (f : SILFunction) (iid : Nat) : Option SILInstruction :=
  ((f.blocks.map SILBasicBlock.insts).flatten).find? (fun i => i.iid == iid)

/-- `dyn_cast<SILInstruction>` on a value: its defining instruction, if any. -/
def defInst (f : SILFunction) (v : SILValue) : Option SILInstruction :=
  match v with
  | SILValue.res iid => findInst f iid
  | _ => none

/-- `SILInstruction::mayHaveSideEffects`, per kind. -/
def mayHaveSideEffects : InstKind → Bool
  | InstKind.generic _ se => se
  | InstKind.applyBuiltin _ sef => !sef
  | InstKind.retainValue => true
  | InstKind.releaseValue => true
  | InstKind.strongRetain => true
  | InstKind.uncheckedEnumData _ => false

/-- Substitute value `v` by `w` in one operand slot. -/
def substV (v w x : SILValue) : SILValue :=
  if x = v then w else x

/-- Substitute in an instruction's operand list. -/
def substInst (v w : SILValue) (i : SILInstruction) : SILInstruction :=
  { i with ops := i.ops.map (substV v w) }

/-- Substitute in a terminator's operand slots. -/
def substTerm (v w : SILValue) : TermInst → TermInst
  | TermInst.br d args => TermInst.br d (args.map (substV v w))
  | TermInst.condBr c td ta fd fa =>
      TermInst.condBr (substV v w c) td (ta.map (substV v w)) fd (fa.map (substV v w))
  | TermInst.switchEnum s cs => TermInst.switchEnum (substV v w s) cs
  | TermInst.checkedCastBr o sd fd => TermInst.checkedCastBr (substV v w o) sd fd
  | TermInst.ret x => TermInst.ret (substV v w x)

/-- `SILValue::replaceAllUsesWith`: rewrite every operand slot holding `v`
to `w`. -/
def replaceAllUsesWith (f : SILFunction) (v w : SILValue) : SILFunction :=
  { f with blocks := f.blocks.map (fun b =>
      { b with insts := b.insts.map (substInst v w), term := substTerm v w b.term }) }

/-- `SILInstruction::eraseFromParent`: remove the instruction with identity
`iid` from its block. -/
def eraseFromParent (f : SILFunction) (iid : Nat) : SILFunction :=
  { f with blocks := f.blocks.map (fun b =>
      { b with insts := b.insts.filter (fun i => i.iid != iid) }) }

/-- Insert an instruction at the front of block `bid`. -/
def prependToBlock (f : SILFunction) (bid : Nat) (i : SILInstruction) : SILFunction :=
  { f with blocks := f.blocks.map (fun b =>
      if b.bid = bid then { b with insts := i :: b.insts } else b) }

/-- `I->moveBefore(BB->begin())`: unlink the instruction from its block and
insert it at the front of block `bid`. -/
def moveBeforeBegin (f : SILFunction) (iid : Nat) (bid : Nat) : SILFunction :=
  match findInst f iid with
  | none => f
  | some i => prependToBlock (eraseFromParent f iid) bid i

/-- Total number of instructions of the function (a fuel bound). -/
def totalInsts (f : SILFunction) : Nat :=
  (f.blocks.map (fun b => b.insts.length)).sum

/-- The bounded scan window of the pass (`SinkSearchWindow = 6`). -/
def SinkSearchWindow : Nat := 6

/-- The `Changed |= step(...)` loop pattern shared by the sinker drivers:
thread the function state through `step` over `l`, accumulating the
disjunction of the per-step changed flags. -/
def orFold {α : Type} (step : SILFunction → α → SILFunction × Bool) :
    SILFunction × Bool → List α → SILFunction × Bool
  | acc, [] => acc
  | acc, a :: l => orFold step ((step acc.1 a).1, acc.2 || (step acc.1 a).2) l

/-- `canSinkInstruction`: the instruction has no uses (and is not a
terminator — terminators are a separate scan-entry constructor here). -/
def canSinkInstruction (f : SILFunction) (i : SILInstruction) : Bool :=
  countUses f (SILValue.res i.iid) == 0

/-- `isSinkBarrier` for a non-terminator instruction: an apply of a builtin
function ref is a barrier exactly when the builtin is not known side-effect
free; otherwise any instruction that may have side effects is a barrier. -/
def isSinkBarrier (i : SILInstruction) : Bool :=
  match i.kind with
  | InstKind.applyBuiltin _ sef => !sef
  | k => mayHaveSideEffects k

/-- `SILInstruction::isIdenticalTo`: same kind and the same operand values. -/
def isIdenticalTo (a b : SILInstruction) : Bool :=
  a.kind == b.kind && a.ops == b.ops

/-- A position of the backward scan: an instruction or the terminator. -/
inductive ScanEntry where
  | inst (i : SILInstruction)
  | tm (t : TermInst)
  deriving DecidableEq, Repr

/-- The block viewed from its terminator backwards: the scan starts at the
terminator and steps toward the first instruction. -/
def scanFromTerminator (b : SILBasicBlock) : List ScanEntry :=
  ScanEntry.tm b.term :: (b.insts.reverse.map ScanEntry.inst)

/-- `findIdenticalInBlock`: scan `BB` backward from its terminator with a
skip budget, returning a sinkable instruction identical to `iden`; a sink
barrier or the block start ends the scan. -/
def findIdenticalInBlock (f : SILFunction) (iden : SILInstruction) :
    List ScanEntry → Nat → Option SILInstruction
  | _, 0 => none
  | [], _ + 1 => none
  | ScanEntry.inst i :: rest, b + 1 =>
      if canSinkInstruction f i && isIdenticalTo iden i then some i
      else if isSinkBarrier i then none
      else if rest.isEmpty then none
      else findIdenticalInBlock f iden rest b
  | ScanEntry.tm _ :: rest, b + 1 =>
      if rest.isEmpty then none
      else findIdenticalInBlock f iden rest b

/-! Duplicate-Code Sinker (`sinkCodeFromPredecessors`). -/

/-- The per-predecessor duplicate search of `sinkCodeFromPredecessors`
(its inner `for` loop over the other predecessors): a duplicate of `iden`
in every predecessor other than the first, or `none` on the first miss. -/
def collectDups (f : SILFunction) (firstId : Nat) (iden : SILInstruction) :
    List SILBasicBlock → Option (List SILInstruction)
  | [] => some []
  | p :: ps =>
      if p.bid = firstId then collectDups f firstId iden ps
      else
        match findIdenticalInBlock f iden (scanFromTerminator p) SinkSearchWindow with
        | some d => (collectDups f firstId iden ps).map (fun ds => d :: ds)
        | none => none

/-- One successful sink of `sinkCodeFromPredecessors`: move the candidate
(identity `xid`) to the front of `bid`, then for each duplicate rewrite its
uses to the moved instruction and erase it. -/
def sinkDups (f : SILFunction) (bid : Nat) (xid : Nat) (ds : List SILInstruction) :
    SILFunction :=
  ds.foldl
    (fun g d => eraseFromParent (replaceAllUsesWith g (SILValue.res d.iid) (SILValue.res xid)) d.iid)
    (moveBeforeBegin f xid bid)

/-- The scan cursor after a successful sink: the first predecessor's
terminator, refetched from the mutated function. -/
def restartEntries (f : SILFunction) (firstId : Nat) : List ScanEntry :=
  match blk f firstId with
  | some p => scanFromTerminator p
  | none => []

/-- The sink decision for one candidate: a sinkable instruction whose
duplicate search succeeded with a non-empty duplicate list (`Dups.size()`),
as in the body of the scan loop of `sinkCodeFromPredecessors`. -/
def trySinkCandidate (f : SILFunction) (bid firstId : Nat) (X : SILInstruction) :
    Option (List SILInstruction) :=
  if canSinkInstruction f X then
    match collectDups f firstId X (preds f bid) with
    | some (d :: ds) => some (d :: ds)
    | _ => none
  else none

/-- The main backward-scan loop of `sinkCodeFromPredecessors`.  The skip
budget is decremented only when the cursor advances without sinking; a
successful sink restarts the cursor at the first predecessor's terminator
with the budget unchanged.  The extra fuel argument bounds the recursion
(each iteration either consumes budget or erases at least one duplicate);
the result carries the function, the changed flag and the number of
`NumSunk` statistic increments (one per erased duplicate). -/
def sinkLoop (bid firstId : Nat) :
    Nat → SILFunction → List ScanEntry → Nat → Bool → Nat → SILFunction × Bool × Nat
  | 0, f, _, _, ch, cnt => (f, ch, cnt)
  | _ + 1, f, _, 0, ch, cnt => (f, ch, cnt)
  | fuel + 1, f, entries, budget + 1, ch, cnt =>
      match entries with
      | [] => (f, ch, cnt)
      | ScanEntry.inst X :: rest =>
          match trySinkCandidate f bid firstId X with
          | some ds =>
              let g := sinkDups f bid X.iid ds
              sinkLoop bid firstId fuel g (restartEntries g firstId) (budget + 1) true
                (cnt + ds.length)
          | none =>
              if isSinkBarrier X then (f, ch, cnt)
              else if rest.isEmpty then (f, ch, cnt)
              else sinkLoop bid firstId fuel f rest budget ch cnt
      | ScanEntry.tm _ :: rest =>
          if rest.isEmpty then (f, ch, cnt)
          else sinkLoop bid firstId fuel f rest budget ch cnt

/-- Fuel sufficient for `sinkLoop`: the budget is decremented at most
`SinkSearchWindow` times over the whole run and every sink erases at least
one instruction. -/
def sinkFuel (f : SILFunction) : Nat :=
  totalInsts f + SinkSearchWindow + 2

/-- `sinkCodeFromPredecessors`: sink duplicated instructions from the tails
of all predecessors of `bid` into `bid`.  Every predecessor must have `bid`
as its single successor, and the first predecessor must have at least one
non-terminator instruction. -/
def sinkCodeFromPredecessors (f : SILFunction) (bid : Nat) : SILFunction × Bool × Nat :=
  match preds f bid with
  | [] => (f, false, 0)
  | firstPred :: restPreds =>
      if (firstPred :: restPreds).all (fun p => getSingleSuccessor p == some bid) then
        if firstPred.insts.isEmpty then (f, false, 0)
        else
          sinkLoop bid firstPred.bid (sinkFuel f) f (scanFromTerminator firstPred)
            SinkSearchWindow false 0
      else (f, false, 0)

/-! Block-Argument Sinker (`sinkArgument`, `sinkArgumentsFromPredecessors`). -/

/-- The branch-form test of `sinkArgument` on the other predecessors:
`isa<BranchInst> || isa<CondBranchInst>`. -/
def isBranchForm : TermInst → Bool
  | TermInst.br _ _ => true
  | TermInst.condBr _ _ _ _ _ => true
  | _ => false

/-- The clone-collection loop of `sinkArgument` (its `for` loop over the
predecessors other than the first): the `argNum`-th operand of every other
predecessor's terminator must be the result of a single-use instruction
structurally identical to `fsi`; any non-branch terminator or mismatch
aborts. -/
def collectClones (f : SILFunction) (argNum : Nat) (fsi : SILInstruction) :
    List SILBasicBlock → Option (List SILValue)
  | [] => some []
  | p :: ps =>
      if isBranchForm p.term then
        match defInst f (getTermOperand p.term argNum) with
        | some si =>
            if countUses f (SILValue.res si.iid) == 1 && isIdenticalTo si fsi then
              (collectClones f argNum fsi ps).map (fun cs => SILValue.res si.iid :: cs)
            else none
        | none => none
      else none

/-- Modelled from the spec: `recursivelyDeleteTriviallyDeadInstructions`
comes from SILPasses/Utils/Local, which is not part of this repository
slice.  Spec §4.3 describes it: remove the per-predecessor duplicates,
recursively deleting any instruction made dead by this removal, bounded to
the immediate dependency chain.  An instruction with no remaining uses and
no side effects is erased, and its operand-defining instructions are then
reconsidered; the recursion is bounded by fuel. -/
def recursivelyDeleteTriviallyDead : Nat → SILFunction → Nat → SILFunction
  | 0, f, _ => f
  | fuel + 1, f, iid =>
      match findInst f iid with
      | none => f
      | some i =>
          if countUses f (SILValue.res iid) == 0 && !mayHaveSideEffects i.kind then
            i.ops.foldl
              (fun g v =>
                match v with
                | SILValue.res m => recursivelyDeleteTriviallyDead fuel g m
                | _ => g)
              (eraseFromParent f iid)
          else f

/-- The clone-cleanup step of `sinkArgument` (the loop over `Clones`): any
clone other than the moved instruction is replaced by undef and deleted. -/
def sinkArgumentCleanupStep (fsi : SILInstruction) (g : SILFunction) (s : SILValue) :
    SILFunction :=
  if s = SILValue.res fsi.iid then g
  else
    let g1 := replaceAllUsesWith g s SILValue.undef
    match s with
    | SILValue.res m => recursivelyDeleteTriviallyDead (totalInsts g1) g1 m
    | _ => g1

/-- The mutation sequence of a successful `sinkArgument`: replace the first
copy's use by undef, move it to the front of `bid`, rewrite the block
argument's uses to it, and then replace every other clone by undef and
delete it. -/
def sinkArgumentApply (f : SILFunction) (bid argNum : Nat) (fsi : SILInstruction)
    (clones : List SILValue) : SILFunction :=
  let f1 := replaceAllUsesWith f (SILValue.res fsi.iid) SILValue.undef
  let f2 := moveBeforeBegin f1 fsi.iid bid
  let f3 := replaceAllUsesWith f2 (SILValue.arg bid argNum) (SILValue.res fsi.iid)
  clones.foldl (sinkArgumentCleanupStep fsi) f3

/-- `sinkArgument`: try to sink the values flowing into block argument
`argNum` of `bid`.  The first predecessor supplies a single-use,
side-effect-free instruction result; every other predecessor must supply a
structurally identical single-use instruction through a (conditional)
branch.  On success `sinkArgumentApply` performs the mutation. -/
def sinkArgument (f : SILFunction) (bid : Nat) (argNum : Nat) : SILFunction × Bool :=
  match preds f bid with
  | [] => (f, false)
  | firstPred :: restPreds =>
      match defInst f (getTermOperand firstPred.term argNum) with
      | none => (f, false)
      | some fsi =>
          if countUses f (SILValue.res fsi.iid) != 1 then (f, false)
          else if mayHaveSideEffects fsi.kind then (f, false)
          else
            match collectClones f argNum fsi restPreds with
            | none => (f, false)
            | some clones0 =>
                (sinkArgumentApply f bid argNum fsi
                  (getTermOperand firstPred.term argNum :: clones0), true)

/-- `sinkArgumentsFromPredecessors`: with at least two predecessor edges,
each predecessor having `bid` as single successor, try `sinkArgument` on
every argument index, accumulating the changed flag. -/
def sinkArgumentsFromPredecessors (f : SILFunction) (bid : Nat) : SILFunction × Bool :=
  match blk f bid with
  | none => (f, false)
  | some b =>
      if predEdges f bid == 0 || predEdges f bid == 1 then (f, false)
      else if (preds f bid).all (fun p => getSingleSuccessor p == some bid) then
        orFold (fun g i => sinkArgument g bid i) (f, false) (List.range b.nargs)
      else (f, false)

/-! Reference-Count Sinker (`tryToSinkRefCountAcrossSwitch`,
`tryToSinkRefCountInst`, `sinkRetainToSuccessors`). -/

/-- Modelled from the spec: the alias oracle `canDecrementRefCount` of
SILAnalysis/ARCAnalysis, an external collaborator consumed as a boolean
query: may this instruction decrement the reference count reachable
through this pointer value. -/
def AliasOracle : Type := SILInstruction → SILValue → Bool

/-- Instructions of block `bid` strictly after the instruction with
identity `iid` (and strictly before the terminator). -/
def instsAfter (f : SILFunction) (bid : Nat) (iid : Nat) : List SILInstruction :=
  match blk f bid with
  | none => []
  | some b => afterId b.insts iid
where
  afterId : List SILInstruction → Nat → List SILInstruction
    | [], _ => []
    | i :: rest, iid => if i.iid = iid then rest else afterId rest iid

/-- `createRefCountOpForPayload`: for a payload-carrying case, project the
payload out of the boxed operand with an `unchecked_enum_data` and re-emit
the reference-count operation on the projection, both at the front of the
successor block; a payload-free case gets nothing. -/
def createRefCountOpForPayload (f : SILFunction) (sbid : Nat) (I : SILInstruction)
    (elt : EnumElt) : SILFunction :=
  if !elt.hasArg then f
  else
    let u : SILInstruction :=
      { iid := f.nextId, kind := InstKind.uncheckedEnumData elt.eid,
        ops := [I.ops.getD 0 SILValue.undef] }
    let r : SILInstruction :=
      { iid := f.nextId + 1,
        kind := if I.kind = InstKind.retainValue then InstKind.retainValue
                else InstKind.releaseValue,
        ops := [SILValue.res u.iid] }
    { blocks := f.blocks.map (fun b =>
        if b.bid = sbid then { b with insts := u :: r :: b.insts } else b),
      nextId := f.nextId + 2 }

/-- `tryToSinkRefCountAcrossSwitch`: sink a `retain_value` of the
`switch_enum` scrutinee into the dispatch arms, as payload retains. -/
def tryToSinkRefCountAcrossSwitch (AA : AliasOracle) (f : SILFunction) (bid : Nat)
    (scrut : SILValue) (cases : List (EnumElt × Nat)) (I : SILInstruction) :
    SILFunction × Bool :=
  if I.kind != InstKind.retainValue then (f, false)
  else if I.ops.getD 0 SILValue.undef != scrut then (f, false)
  else if (instsAfter f bid I.iid).any (fun J => AA J (I.ops.getD 0 SILValue.undef)) then
    (f, false)
  else
    (eraseFromParent
      (cases.foldl (fun g c => createRefCountOpForPayload g c.2 I c.1) f) I.iid, true)

/-- Insert a fresh `strong_retain` of `ptr` at the front of block `sbid`. -/
def prependStrongRetain (f : SILFunction) (sbid : Nat) (ptr : SILValue) : SILFunction :=
  { blocks := f.blocks.map (fun b =>
      if b.bid = sbid then
        { b with insts := { iid := f.nextId, kind := InstKind.strongRetain, ops := [ptr] } :: b.insts }
      else b),
    nextId := f.nextId + 1 }

/-- `tryToSinkRefCountInst`: dispatch on the terminator kind.  A
`switch_enum` sinks a `retain_value` of its scrutinee across the dispatch;
a `cond_br` or `checked_cast_br` sinks a `strong_retain` (re-emitted on the
same pointer at the start of every successor); anything else declines. -/
def tryToSinkRefCountInst (AA : AliasOracle) (f : SILFunction) (bid : Nat)
    (I : SILInstruction) : SILFunction × Bool :=
  match blk f bid with
  | none => (f, false)
  | some b =>
      match b.term with
      | TermInst.switchEnum scrut cases => tryToSinkRefCountAcrossSwitch AA f bid scrut cases I
      | TermInst.condBr _ _ _ _ _ =>
          if I.kind != InstKind.strongRetain then (f, false)
          else if (instsAfter f bid I.iid).any
              (fun J => AA J (I.ops.getD 0 SILValue.undef)) then (f, false)
          else
            (eraseFromParent
              ((termSuccs b.term).foldl
                (fun g s => prependStrongRetain g s (I.ops.getD 0 SILValue.undef)) f)
              I.iid, true)
      | TermInst.checkedCastBr _ _ _ =>
          if I.kind != InstKind.strongRetain then (f, false)
          else if (instsAfter f bid I.iid).any
              (fun J => AA J (I.ops.getD 0 SILValue.undef)) then (f, false)
          else
            (eraseFromParent
              ((termSuccs b.term).foldl
                (fun g s => prependStrongRetain g s (I.ops.getD 0 SILValue.undef)) f)
              I.iid, true)
      | _ => (f, false)

/-- `sinkRetainToSuccessors`: every successor must have exactly one
predecessor edge; then every instruction of the block is tried as a sink
candidate, scanning backward from the instruction before the terminator
down to the first instruction. -/
def sinkRetainToSuccessors (AA : AliasOracle) (f : SILFunction) (bid : Nat) :
    SILFunction × Bool :=
  match blk f bid with
  | none => (f, false)
  | some b =>
      if !(termSuccs b.term).all (fun s => predEdges f s == 1) then (f, false)
      else
        match b.insts with
        | [] => (f, false)
        | _ =>
            orFold (fun g I => tryToSinkRefCountInst AA g bid I) (f, false) b.insts.reverse

/-! Pass Driver (`SILCodeMotion::run`). -/

/-- The invalidation notice the driver can send to the pass framework. -/
inductive InvalidationKind where
  | Instructions
  deriving DecidableEq, Repr

/-- The per-block body of the driver's sweep: the Duplicate-Code Sinker,
then the Block-Argument Sinker, then the Reference-Count Sinker, with the
disjunction of their changed flags. -/
def processBlock (AA : AliasOracle) (g : SILFunction) (bid : Nat) : SILFunction × Bool :=
  let r1 := sinkCodeFromPredecessors g bid
  let r2 := sinkArgumentsFromPredecessors r1.1 bid
  let r3 := sinkRetainToSuccessors AA r2.1 bid
  (r3.1, r1.2.1 || r2.2 || r3.2)

/-- `SILCodeMotion::run`: one sweep over the function's blocks, applying the
Duplicate-Code Sinker, the Block-Argument Sinker and the Reference-Count
Sinker to each block, accumulating one changed flag; if anything changed,
instruction-level analyses are invalidated. -/
def SILCodeMotion.run (AA : AliasOracle) (f : SILFunction) :
    SILFunction × Bool × Option InvalidationKind :=
  let r := orFold (fun g b => processBlock AA g b.bid) (f, false) f.blocks
  (r.1, r.2, if r.2 then some InvalidationKind.Instructions else none)

/-- Terminator kinds for which `tryToSinkRefCountInst` has a sinking rule at
all: `switch_enum`, `cond_br` and `checked_cast_br`. -/
def refCountSinkHandles : TermInst → Bool
  | TermInst.switchEnum _ _ => true
  | TermInst.condBr _ _ _ _ _ => true
  | TermInst.checkedCastBr _ _ _ => true
  | _ => false

/-- The two-successor branch terminators for which the Reference-Count
Sinker re-emits `strong_retain`: `cond_br` and `checked_cast_br`. -/
def isCondBrOrCastBr : TermInst → Bool
  | TermInst.condBr _ _ _ _ _ => true
  | TermInst.checkedCastBr _ _ _ => true
  | _ => false

/-! Concrete IR instances used as counterexamples and witnesses. -/

/-- Two predecessors passing the result of a structurally identical pure
single-use instruction (opcode 7) as argument 0 of block 2, which returns
that argument. -/
def exC1 : SILFunction :=
  { blocks :=
      [ { bid := 0, nargs := 0, insts := [{ iid := 5, kind := InstKind.generic 7 false, ops := [] }],
          term := TermInst.br 2 [SILValue.res 5] },
        { bid := 1, nargs := 0, insts := [{ iid := 6, kind := InstKind.generic 7 false, ops := [] }],
          term := TermInst.br 2 [SILValue.res 6] },
        { bid := 2, nargs := 1, insts := [], term := TermInst.ret (SILValue.arg 2 0) } ],
    nextId := 12 }

/-- A first predecessor whose terminator is a single-case `switch_enum` (not
a branch form), with the scrutinee a pure single-use instruction result, and
a second predecessor passing a structurally identical value through a
branch. -/
def exC5 : SILFunction :=
  { blocks :=
      [ { bid := 0, nargs := 0, insts := [{ iid := 10, kind := InstKind.generic 3 false, ops := [] }],
          term := TermInst.switchEnum (SILValue.res 10) [(⟨0, true⟩, 2)] },
        { bid := 1, nargs := 0, insts := [{ iid := 11, kind := InstKind.generic 3 false, ops := [] }],
          term := TermInst.br 2 [SILValue.res 11] },
        { bid := 2, nargs := 1, insts := [], term := TermInst.ret (SILValue.arg 2 0) } ],
    nextId := 12 }

/-- Two predecessor tails that both end (before the terminator) with a
side-effecting instruction (opcode 2) preceded by a pure instruction
(opcode 1), all identical across the predecessors and use-free. -/
def exC6 : SILFunction :=
  { blocks :=
      [ { bid := 0, nargs := 0,
          insts := [{ iid := 1, kind := InstKind.generic 1 false, ops := [] },
                    { iid := 2, kind := InstKind.generic 2 true, ops := [] }],
          term := TermInst.br 2 [] },
        { bid := 1, nargs := 0,
          insts := [{ iid := 3, kind := InstKind.generic 1 false, ops := [] },
                    { iid := 4, kind := InstKind.generic 2 true, ops := [] }],
          term := TermInst.br 2 [] },
        { bid := 2, nargs := 0, insts := [], term := TermInst.ret SILValue.undef } ],
    nextId := 20 }

/-- Three predecessors of block 3, each ending with an identical pure
use-free instruction (opcode 9): one sink event erasing two duplicates. -/
def exC4 : SILFunction :=
  { blocks :=
      [ { bid := 0, nargs := 0, insts := [{ iid := 1, kind := InstKind.generic 9 false, ops := [] }],
          term := TermInst.br 3 [] },
        { bid := 1, nargs := 0, insts := [{ iid := 2, kind := InstKind.generic 9 false, ops := [] }],
          term := TermInst.br 3 [] },
        { bid := 2, nargs := 0, insts := [{ iid := 3, kind := InstKind.generic 9 false, ops := [] }],
          term := TermInst.br 3 [] },
        { bid := 3, nargs := 0, insts := [], term := TermInst.ret SILValue.undef } ],
    nextId := 20 }

/-- A block that retains the scrutinee of its two-case `switch_enum` (case 0
carries a payload, case 1 does not), each successor having the block as sole
predecessor. -/
def exC2 : SILFunction :=
  { blocks :=
      [ { bid := 0, nargs := 1,
          insts := [{ iid := 1, kind := InstKind.retainValue, ops := [SILValue.arg 0 0] }],
          term := TermInst.switchEnum (SILValue.arg 0 0) [(⟨0, true⟩, 1), (⟨1, false⟩, 2)] },
        { bid := 1, nargs := 1, insts := [], term := TermInst.ret SILValue.undef },
        { bid := 2, nargs := 0, insts := [], term := TermInst.ret SILValue.undef } ],
    nextId := 10 }

/-- The configuration of exC2 with an instruction (identity 2) between the
retain and the terminator; the oracle `exAAdec` reports that it may
decrement the pointer. -/
def exC3 : SILFunction :=
  { blocks :=
      [ { bid := 0, nargs := 1,
          insts := [{ iid := 1, kind := InstKind.retainValue, ops := [SILValue.arg 0 0] },
                    { iid := 2, kind := InstKind.generic 5 false, ops := [SILValue.arg 0 0] }],
          term := TermInst.switchEnum (SILValue.arg 0 0) [(⟨0, true⟩, 1), (⟨1, false⟩, 2)] },
        { bid := 1, nargs := 1, insts := [], term := TermInst.ret SILValue.undef },
        { bid := 2, nargs := 0, insts := [], term := TermInst.ret SILValue.undef } ],
    nextId := 10 }

/-- An oracle that never reports a possible decrement. -/
def exAAnone : AliasOracle := fun _ _ => false

/-- An oracle reporting that instruction 2 may decrement any pointer. -/
def exAAdec : AliasOracle := fun J _ => J.iid == 2

/-- The mirror image of exC5: the first predecessor branches, while the
second (non-first) predecessor ends in a single-case `switch_enum`. -/
def exC5b : SILFunction :=
  { blocks :=
      [ { bid := 0, nargs := 0, insts := [{ iid := 10, kind := InstKind.generic 3 false, ops := [] }],
          term := TermInst.br 2 [SILValue.res 10] },
        { bid := 1, nargs := 0, insts := [{ iid := 11, kind := InstKind.generic 3 false, ops := [] }],
          term := TermInst.switchEnum (SILValue.res 11) [(⟨0, true⟩, 2)] },
        { bid := 2, nargs := 1, insts := [], term := TermInst.ret (SILValue.arg 2 0) } ],
    nextId := 12 }

/-- A one-block function the pass cannot change. -/
def exTriv : SILFunction :=
  { blocks := [{ bid := 0, nargs := 0, insts := [], term := TermInst.ret SILValue.undef }],
    nextId := 1 }

end SILModel

namespace CaptureInfoModel

/-- `CaptureInfo::print`: writes `captures=(` and then unconditionally the
name of the first capture, then `, name` for each capture in the slice from
index 1, then `)`.  Reading element 0 of an empty capture list is out of
bounds, so the empty list yields `none`. -/
def print : List String → Option String
  | [] => none
  | c0 :: rest =>
      some ("captures=(" ++ c0 ++ String.join (rest.map (fun n => ", " ++ n)) ++ ")")

/-- `CaptureInfo::dump`: `print` to stderr followed by a newline. -/
def dump (captures : List String) : Option String :=
  (print captures).map (fun s => s ++ "\n")

end CaptureInfoModel

/-! Proof development. -/

namespace SILModel

/-! Basic lemmas about the IR operations. -/

theorem find?_bid_map (g : SILBasicBlock → SILBasicBlock) (hg : ∀ b, (g b).bid = b.bid)
    (l : List SILBasicBlock) (bid : Nat) :
    (l.map g).find? (fun b => b.bid == bid) =
      (l.find? (fun b => b.bid == bid)).map g := by
  induction l with
  | nil => rfl
  | cons b t ih =>
      simp only [List.map_cons, List.find?_cons, hg]
      cases hb : (b.bid == bid) <;> simp [ih]

theorem blk_rauw (f : SILFunction) (v w : SILValue) (bid : Nat) :
    blk (replaceAllUsesWith f v w) bid =
      (blk f bid).map (fun b =>
        { b with insts := b.insts.map (substInst v w), term := substTerm v w b.term }) := by
  unfold blk replaceAllUsesWith
  exact find?_bid_map
    (fun b => { b with insts := b.insts.map (substInst v w), term := substTerm v w b.term })
    (fun b => rfl) f.blocks bid

theorem blk_erase (f : SILFunction) (iid : Nat) (bid : Nat) :
    blk (eraseFromParent f iid) bid =
      (blk f bid).map (fun b => { b with insts := b.insts.filter (fun i => i.iid != iid) }) := by
  unfold blk eraseFromParent
  exact find?_bid_map
    (fun b => { b with insts := b.insts.filter (fun i => i.iid != iid) })
    (fun b => rfl) f.blocks bid

theorem blk_prepend (f : SILFunction) (c : Nat) (i : SILInstruction) (bid : Nat) :
    blk (prependToBlock f c i) bid =
      (blk f bid).map (fun b => if b.bid = c then { b with insts := i :: b.insts } else b) := by
  unfold blk prependToBlock
  refine find?_bid_map
    (fun b => if b.bid = c then { b with insts := i :: b.insts } else b)
    (fun b => ?_) f.blocks bid
  by_cases h : b.bid = c <;> simp [h]

theorem substV_self (v w : SILValue) : substV v w v = w := if_pos rfl

theorem substV_of_ne {x v : SILValue} (w : SILValue) (h : x ≠ v) : substV v w x = x := if_neg h

theorem map_substV_id {v : SILValue} (w : SILValue) {L : List SILValue} (h : v ∉ L) :
    L.map (substV v w) = L := by
  induction L with
  | nil => rfl
  | cons a t ih =>
      simp only [List.mem_cons, not_or] at h
      simp [substV_of_ne w (fun he => h.1 he.symm), ih h.2]

theorem count_map_substV_self {v w : SILValue} (h : w ≠ v) (L : List SILValue) :
    (L.map (substV v w)).count v = 0 := by
  rw [List.count_eq_zero]
  intro hm
  rcases List.mem_map.mp hm with ⟨x, _, hx⟩
  by_cases hxv : x = v
  · subst hxv; rw [substV_self] at hx; exact h hx
  · rw [substV_of_ne w hxv] at hx; exact hxv hx

theorem count_map_substV_other {x v w : SILValue} (h1 : x ≠ v) (h2 : x ≠ w)
    (L : List SILValue) : (L.map (substV v w)).count x = L.count x := by
  induction L with
  | nil => rfl
  | cons a t ih =>
      by_cases hav : a = v
      · subst hav
        have e1 : (w == x) = false := beq_eq_false_iff_ne.mpr (fun he => h2 he.symm)
        have e2 : (a == x) = false := beq_eq_false_iff_ne.mpr (fun he => h1 he.symm)
        simp [List.count_cons, substV_self, e1, e2, ih]
      · simp [List.count_cons, substV_of_ne w hav, ih]

theorem termOperands_substTerm (v w : SILValue) (t : TermInst) :
    termOperands (substTerm v w t) = (termOperands t).map (substV v w) := by
  cases t <;> simp [termOperands, substTerm]

theorem termSuccs_substTerm (v w : SILValue) (t : TermInst) :
    termSuccs (substTerm v w t) = termSuccs t := by
  cases t <;> simp [termSuccs, substTerm]

theorem instSlots_map_substInst (v w : SILValue) (l : List SILInstruction) :
    instSlots (l.map (substInst v w)) = (instSlots l).map (substV v w) := by
  unfold instSlots
  rw [List.map_map, List.map_flatten, List.map_map]
  rfl

theorem operandSlots_rauw (f : SILFunction) (v w : SILValue) :
    operandSlots (replaceAllUsesWith f v w) = (operandSlots f).map (substV v w) := by
  unfold operandSlots replaceAllUsesWith
  rw [List.map_flatten, List.map_map, List.map_map]
  congr 1
  refine List.map_congr_left (fun b _ => ?_)
  simp only [Function.comp]
  unfold blockSlots
  rw [List.map_append, instSlots_map_substInst, termOperands_substTerm]

theorem countUses_rauw_self (f : SILFunction) {v w : SILValue} (h : w ≠ v) :
    countUses (replaceAllUsesWith f v w) v = 0 := by
  unfold countUses
  rw [operandSlots_rauw]
  exact count_map_substV_self h _

theorem countUses_rauw_other (f : SILFunction) {x v w : SILValue} (h1 : x ≠ v) (h2 : x ≠ w) :
    countUses (replaceAllUsesWith f v w) x = countUses f x := by
  unfold countUses
  rw [operandSlots_rauw]
  exact count_map_substV_other h1 h2 _

theorem countUses_rauw_zero (f : SILFunction) {x : SILValue} (v : SILValue) {w : SILValue}
    (h0 : countUses f x = 0) (h2 : x ≠ w) :
    countUses (replaceAllUsesWith f v w) x = 0 := by
  by_cases hxv : x = v
  · subst hxv; exact countUses_rauw_self f (fun he => h2 he.symm)
  · rw [countUses_rauw_other f hxv h2]; exact h0

theorem flatten_sublist {α β : Type} (l : List α) (g h : α → List β)
    (H : ∀ x ∈ l, List.Sublist (g x) (h x)) :
    List.Sublist ((l.map g).flatten) ((l.map h).flatten) := by
  induction l with
  | nil => exact List.Sublist.refl _
  | cons a t ih =>
      simp only [List.map_cons, List.flatten_cons]
      exact List.Sublist.append (H a (List.mem_cons_self a t))
        (ih (fun x hx => H x (List.mem_cons_of_mem a hx)))

theorem flatten_sublist_of_sublist {α : Type} {L1 L2 : List (List α)} (h : List.Sublist L1 L2) :
    List.Sublist L1.flatten L2.flatten := by
  induction h with
  | slnil => exact List.Sublist.refl _
  | cons a h ih => exact ih.trans (List.sublist_append_right a _)
  | cons₂ a h ih => exact List.Sublist.append_left ih a

theorem operandSlots_erase_sublist (f : SILFunction) (iid : Nat) :
    List.Sublist (operandSlots (eraseFromParent f iid)) (operandSlots f) := by
  unfold operandSlots eraseFromParent
  simp only [List.map_map]
  refine flatten_sublist f.blocks _ _ (fun b _ => ?_)
  simp only [Function.comp]
  unfold blockSlots
  refine List.Sublist.append ?_ (List.Sublist.refl _)
  unfold instSlots
  exact flatten_sublist_of_sublist
    (List.Sublist.map SILInstruction.ops (List.filter_sublist b.insts))

theorem countUses_erase_le (f : SILFunction) (iid : Nat) (v : SILValue) :
    countUses (eraseFromParent f iid) v ≤ countUses f v :=
  List.Sublist.count_le (operandSlots_erase_sublist f iid) v

theorem countUses_erase_zero (f : SILFunction) (iid : Nat) {v : SILValue}
    (h : countUses f v = 0) : countUses (eraseFromParent f iid) v = 0 :=
  Nat.le_zero.mp (h ▸ countUses_erase_le f iid v)

theorem mem_operandSlots {f : SILFunction} {bid : Nat} {b : SILBasicBlock}
    {i : SILInstruction} {v : SILValue} (hb : blk f bid = some b) (hi : i ∈ b.insts)
    (hv : v ∈ i.ops) : v ∈ operandSlots f := by
  have hbm : b ∈ f.blocks := List.mem_of_find?_eq_some hb
  unfold operandSlots
  rw [List.mem_flatten]
  refine ⟨blockSlots b, List.mem_map_of_mem _ hbm, ?_⟩
  unfold blockSlots
  refine List.mem_append_left _ ?_
  unfold instSlots
  rw [List.mem_flatten]
  exact ⟨i.ops, List.mem_map_of_mem _ hi, hv⟩

theorem countUses_pos {f : SILFunction} {bid : Nat} {b : SILBasicBlock}
    {i : SILInstruction} {v : SILValue} (hb : blk f bid = some b) (hi : i ∈ b.insts)
    (hv : v ∈ i.ops) : 0 < countUses f v :=
  List.count_pos_iff.mpr (mem_operandSlots hb hi hv)

theorem blk_bid {f : SILFunction} {bid : Nat} {b : SILBasicBlock}
    (h : blk f bid = some b) : b.bid = bid := by
  have := List.find?_some h
  simpa using this

theorem findInst_iid {f : SILFunction} {iid : Nat} {i : SILInstruction}
    (h : findInst f iid = some i) : i.iid = iid := by
  have := List.find?_some h
  simpa using this

theorem findInst_rauw (f : SILFunction) (v w : SILValue) (iid : Nat) :
    findInst (replaceAllUsesWith f v w) iid = (findInst f iid).map (substInst v w) := by
  unfold findInst replaceAllUsesWith
  simp only [List.map_map]
  have h1 : (f.blocks.map (SILBasicBlock.insts ∘ fun b =>
      { b with insts := b.insts.map (substInst v w), term := substTerm v w b.term })) =
      (f.blocks.map SILBasicBlock.insts).map (List.map (substInst v w)) := by
    simp [List.map_map]
  rw [h1, ← List.map_flatten, List.find?_map]
  congr 1

theorem findInst_erase_self (f : SILFunction) (iid : Nat) :
    findInst (eraseFromParent f iid) iid = none := by
  unfold findInst eraseFromParent
  rw [List.find?_eq_none]
  intro x hx
  simp only [List.map_map, List.mem_flatten, List.mem_map] at hx
  rcases hx with ⟨l, ⟨b, _, hl⟩, hxl⟩
  subst hl
  simp only [Function.comp] at hxl
  have hq := List.of_mem_filter hxl
  rw [bne_iff_ne] at hq
  simp only [beq_iff_eq]
  exact hq

theorem flatten_map_filter {α : Type} (q : α → Bool) (L : List (List α)) :
    (L.map (List.filter q)).flatten = L.flatten.filter q := by
  induction L with
  | nil => rfl
  | cons a t ih => simp only [List.map_cons, List.flatten_cons, List.filter_append, ih]

theorem find?_filter_of_imp {α : Type} (p q : α → Bool) (l : List α)
    (H : ∀ x, p x = true → q x = true) : (l.filter q).find? p = l.find? p := by
  induction l with
  | nil => rfl
  | cons a t ih =>
      by_cases hq : q a = true
      · rw [List.filter_cons_of_pos hq]
        simp only [List.find?_cons]
        cases p a <;> simp [ih]
      · rw [List.filter_cons_of_neg (by simpa using hq)]
        have hp : p a = false := by
          cases hpa : p a
          · rfl
          · exact absurd (H a hpa) hq
        simp only [List.find?_cons, hp, ih]

theorem insts_map_erase (f : SILFunction) (j : Nat) :
    (f.blocks.map (SILBasicBlock.insts ∘ fun b =>
        { b with insts := b.insts.filter (fun i => i.iid != j) })) =
      (f.blocks.map SILBasicBlock.insts).map (List.filter (fun i => i.iid != j)) := by
  simp only [List.map_map]
  exact List.map_congr_left (fun b _ => rfl)

theorem findInst_erase_ne (f : SILFunction) {iid j : Nat} (h : iid ≠ j) :
    findInst (eraseFromParent f j) iid = findInst f iid := by
  unfold findInst eraseFromParent
  simp only [List.map_map]
  rw [insts_map_erase f j]
  rw [flatten_map_filter]
  refine find?_filter_of_imp _ _ _ (fun x hx => ?_)
  have hxi : x.iid = iid := by simpa using hx
  simp only [hxi, bne_iff_ne, ne_eq, decide_not]
  simpa using h

theorem findInst_erase_of_none (f : SILFunction) (j : Nat) {iid : Nat}
    (h : findInst f iid = none) : findInst (eraseFromParent f j) iid = none := by
  unfold findInst eraseFromParent
  simp only [List.map_map]
  rw [insts_map_erase f j]
  rw [flatten_map_filter]
  unfold findInst at h
  rw [List.find?_eq_none] at h ⊢
  exact fun x hx => h x (List.mem_of_mem_filter hx)

theorem findInst_prepend_ne (f : SILFunction) (bid : Nat) {i : SILInstruction}
    {iid : Nat} (h : i.iid ≠ iid) :
    findInst (prependToBlock f bid i) iid = findInst f iid := by
  unfold findInst prependToBlock
  simp only [List.map_map]
  induction f.blocks with
  | nil => rfl
  | cons b t ih =>
      simp only [List.map_cons, List.flatten_cons, List.find?_append, Function.comp]
      rw [ih]
      congr 1
      by_cases hb : b.bid = bid
      · simp only [hb, if_pos rfl]
        have hpi : (i.iid == iid) = false := by simpa using h
        simp [List.find?_cons, hpi]
      · simp [hb]

theorem getTermOperand_substTerm {v : SILValue} (w : SILValue) (t : TermInst) (n : Nat)
    (hvu : v ≠ SILValue.undef) :
    getTermOperand (substTerm v w t) n = substV v w (getTermOperand t n) := by
  unfold getTermOperand
  rw [termOperands_substTerm, List.getD_eq_getElem?_getD, List.getD_eq_getElem?_getD,
    List.getElem?_map]
  cases h : (termOperands t)[n]? with
  | none => simp [substV_of_ne w (fun he => hvu he.symm)]
  | some x => simp

end SILModel

namespace CaptureInfoModel

theorem foldl_append_init (l : List String) :
    ∀ init : String,
      l.foldl (fun r s => r ++ s) init = init ++ l.foldl (fun r s => r ++ s) "" := by
  induction l with
  | nil => intro init; exact (String.append_empty init).symm
  | cons a t ih =>
      intro init
      simp only [List.foldl]
      rw [ih (init ++ a), ih ("" ++ a), String.empty_append, String.append_assoc]

theorem join_cons (a : String) (l : List String) :
    String.join (a :: l) = a ++ String.join l := by
  unfold String.join
  simp only [List.foldl]
  rw [foldl_append_init l ("" ++ a), String.empty_append]

theorem intercalate_go_eq (l : List String) :
    ∀ acc, String.intercalate.go acc ", " l =
      acc ++ String.join (l.map (fun n => ", " ++ n)) := by
  induction l with
  | nil =>
      intro acc
      show acc = acc ++ String.join []
      exact (String.append_empty acc).symm
  | cons b bs ih =>
      intro acc
      show String.intercalate.go (acc ++ ", " ++ b) ", " bs = _
      rw [ih (acc ++ ", " ++ b), List.map_cons, join_cons,
        String.append_assoc acc ", " b, String.append_assoc acc (", " ++ b)]

theorem intercalate_eq_join (c : String) (rest : List String) :
    String.intercalate ", " (c :: rest) =
      c ++ String.join (rest.map (fun n => ", " ++ n)) := by
  show String.intercalate.go c ", " rest = _
  exact intercalate_go_eq rest c

/-- C10: `CaptureInfo::print` (and hence `CaptureInfo::dump`) unconditionally
reads the first element of the capture list before iterating over the
remainder, so it is well-defined only when the capture list is non-empty
(the empty list yields no output, modelling the out-of-bounds read); for
every non-empty capture list it prints all capture names in list order. -/
theorem C10_captureInfo_print_first_element :
    print ([] : List String) = none ∧ dump ([] : List String) = none ∧
      ∀ (c : String) (rest : List String),
        print (c :: rest) =
          some ("captures=(" ++ String.intercalate ", " (c :: rest) ++ ")") := by
  refine ⟨rfl, rfl, fun c rest => ?_⟩
  show some ("captures=(" ++ c ++ String.join (rest.map (fun n => ", " ++ n)) ++ ")") = _
  rw [intercalate_eq_join c rest, String.append_assoc "captures=(" c]

end CaptureInfoModel

namespace SILModel

/-! No sinker mutates the IR while reporting no change (claim C7). -/

theorem orFold_snd_false {α : Type} (step : SILFunction → α → SILFunction × Bool) :
    ∀ (l : List α) (s : SILFunction) (c : Bool),
      (orFold step (s, c) l).2 = false → c = false := by
  intro l
  induction l with
  | nil => intro s c h; exact h
  | cons a t ih =>
      intro s c h
      have h2 := ih ((step (s, c).1 a).1) ((s, c).2 || (step (s, c).1 a).2) h
      exact (Bool.or_eq_false_iff.mp h2).1

theorem orFold_false_eq {α : Type} (step : SILFunction → α → SILFunction × Bool)
    (hstep : ∀ s a, (step s a).2 = false → (step s a).1 = s) :
    ∀ (l : List α) (s : SILFunction) (c : Bool),
      (orFold step (s, c) l).2 = false → (orFold step (s, c) l).1 = s := by
  intro l
  induction l with
  | nil => intro s c _; rfl
  | cons a t ih =>
      intro s c h
      have h2 : ((s, c).2 || (step (s, c).1 a).2) = false :=
        orFold_snd_false step t _ _ h
      have hs : (step s a).2 = false := (Bool.or_eq_false_iff.mp h2).2
      show (orFold step ((step (s, c).1 a).1, (s, c).2 || (step (s, c).1 a).2) t).1 = s
      rw [ih _ _ h]
      exact hstep s a hs

theorem sinkLoop_snd_true (bid firstId : Nat) :
    ∀ (fuel : Nat) (f : SILFunction) (entries : List ScanEntry) (budget : Nat) (cnt : Nat),
      (sinkLoop bid firstId fuel f entries budget true cnt).2.1 = true := by
  intro fuel
  induction fuel with
  | zero => intro f entries budget cnt; rfl
  | succ n ih =>
      intro f entries budget cnt
      cases budget with
      | zero => rfl
      | succ b =>
          cases entries with
          | nil => rfl
          | cons e rest =>
              cases e with
              | inst X =>
                  simp only [sinkLoop]
                  cases htc : trySinkCandidate f bid firstId X with
                  | some ds => exact ih _ _ _ _
                  | none =>
                      by_cases hbar : isSinkBarrier X
                      · simp [hbar]
                      · by_cases hre : rest.isEmpty
                        · simp [hbar, hre]
                        · simp only [hbar, hre, Bool.false_eq_true, if_false]
                          exact ih _ _ _ _
              | tm t =>
                  simp only [sinkLoop]
                  by_cases hre : rest.isEmpty
                  · simp [hre]
                  · simp only [hre, Bool.false_eq_true, if_false]
                    exact ih _ _ _ _

theorem sinkLoop_false_eq (bid firstId : Nat) :
    ∀ (fuel : Nat) (f : SILFunction) (entries : List ScanEntry) (budget : Nat) (cnt : Nat),
      (sinkLoop bid firstId fuel f entries budget false cnt).2.1 = false →
        (sinkLoop bid firstId fuel f entries budget false cnt).1 = f := by
  intro fuel
  induction fuel with
  | zero => intro f entries budget cnt _; rfl
  | succ n ih =>
      intro f entries budget cnt h
      cases budget with
      | zero => rfl
      | succ b =>
          cases entries with
          | nil => rfl
          | cons e rest =>
              cases e with
              | inst X =>
                  cases htc : trySinkCandidate f bid firstId X with
                  | some ds =>
                      simp only [sinkLoop, htc] at h
                      exact absurd h (by simp [sinkLoop_snd_true])
                  | none =>
                      simp only [sinkLoop, htc] at h ⊢
                      by_cases hbar : isSinkBarrier X
                      · simp [hbar]
                      · by_cases hre : rest.isEmpty
                        · simp [hbar, hre]
                        · simp only [hbar, hre, Bool.false_eq_true, if_false] at h ⊢
                          exact ih _ _ _ _ h
              | tm t =>
                  simp only [sinkLoop] at h ⊢
                  by_cases hre : rest.isEmpty
                  · simp [hre]
                  · simp only [hre, Bool.false_eq_true, if_false] at h ⊢
                    exact ih _ _ _ _ h

theorem sinkCode_false_eq (f : SILFunction) (bid : Nat) :
    (sinkCodeFromPredecessors f bid).2.1 = false → (sinkCodeFromPredecessors f bid).1 = f := by
  unfold sinkCodeFromPredecessors
  split
  · intro _; rfl
  · split
    · split
      · intro _; rfl
      · intro h; exact sinkLoop_false_eq _ _ _ _ _ _ _ h
    · intro _; rfl

theorem sinkArgument_false_eq (f : SILFunction) (bid argNum : Nat) :
    (sinkArgument f bid argNum).2 = false → (sinkArgument f bid argNum).1 = f := by
  unfold sinkArgument
  split
  · intro _; rfl
  · split
    · intro _; rfl
    · split
      · intro _; rfl
      · split
        · intro _; rfl
        · split
          · intro _; rfl
          · intro h; simp at h

theorem sinkArgs_false_eq (f : SILFunction) (bid : Nat) :
    (sinkArgumentsFromPredecessors f bid).2 = false →
      (sinkArgumentsFromPredecessors f bid).1 = f := by
  unfold sinkArgumentsFromPredecessors
  split
  · intro _; rfl
  · split
    · intro _; rfl
    · split
      · intro h
        exact orFold_false_eq _ (fun s a => sinkArgument_false_eq s bid a) _ _ _ h
      · intro _; rfl

theorem tryToSinkAcrossSwitch_false_eq (AA : AliasOracle) (f : SILFunction) (bid : Nat)
    (scrut : SILValue) (cases : List (EnumElt × Nat)) (I : SILInstruction) :
    (tryToSinkRefCountAcrossSwitch AA f bid scrut cases I).2 = false →
      (tryToSinkRefCountAcrossSwitch AA f bid scrut cases I).1 = f := by
  unfold tryToSinkRefCountAcrossSwitch
  split
  · intro _; rfl
  · split
    · intro _; rfl
    · split
      · intro _; rfl
      · intro h; simp at h

theorem tryToSinkRefCountInst_false_eq (AA : AliasOracle) (f : SILFunction) (bid : Nat)
    (I : SILInstruction) :
    (tryToSinkRefCountInst AA f bid I).2 = false → (tryToSinkRefCountInst AA f bid I).1 = f := by
  unfold tryToSinkRefCountInst
  split
  · intro _; rfl
  · split
    · intro h; exact tryToSinkAcrossSwitch_false_eq AA f bid _ _ I h
    · split
      · intro _; rfl
      · split
        · intro _; rfl
        · intro h; simp at h
    · split
      · intro _; rfl
      · split
        · intro _; rfl
        · intro h; simp at h
    · intro _; rfl

theorem sinkRetain_false_eq (AA : AliasOracle) (f : SILFunction) (bid : Nat) :
    (sinkRetainToSuccessors AA f bid).2 = false → (sinkRetainToSuccessors AA f bid).1 = f := by
  unfold sinkRetainToSuccessors
  split
  · intro _; rfl
  · split
    · intro _; rfl
    · split
      · intro _; rfl
      · intro h
        exact orFold_false_eq _ (fun s a => tryToSinkRefCountInst_false_eq AA s bid a) _ _ _ h

theorem processBlock_false_eq (AA : AliasOracle) (g : SILFunction) (bid : Nat) :
    (processBlock AA g bid).2 = false → (processBlock AA g bid).1 = g := by
  intro h
  simp only [processBlock] at h ⊢
  simp only [Bool.or_eq_false_iff] at h
  have h1 := sinkCode_false_eq g bid h.1.1
  rw [h1] at h ⊢
  have h2 := sinkArgs_false_eq g bid h.1.2
  rw [h2] at h ⊢
  exact sinkRetain_false_eq AA g bid h.2

theorem run_false_eq (AA : AliasOracle) (f : SILFunction) :
    (SILCodeMotion.run AA f).2.1 = false → (SILCodeMotion.run AA f).1 = f := by
  intro h
  unfold SILCodeMotion.run at h ⊢
  exact orFold_false_eq _ (fun s b => processBlock_false_eq AA s b.bid) _ _ _ h

/-- C7: for every function whose IR the pass cannot further improve — that
is, on which the pass reports `changed = false` — the run leaves the
function's IR identical: no sinker mutates anything while reporting no
change. -/
theorem C7_no_change_means_identical_ir (AA : AliasOracle) (f : SILFunction) :
    (SILCodeMotion.run AA f).2.1 = false → (SILCodeMotion.run AA f).1 = f :=
  run_false_eq AA f

/-- Witness for C7 at a concrete function the pass cannot improve. -/
theorem C7_no_change_means_identical_ir_witness :
    (SILCodeMotion.run exAAnone exTriv).1 = exTriv :=
  C7_no_change_means_identical_ir exAAnone exTriv (by decide)

end SILModel

namespace SILModel

/-! The driver sweep (claim C8). -/

theorem orFold_fst_eq {α : Type} (step : SILFunction → α → SILFunction × Bool) :
    ∀ (l : List α) (s : SILFunction) (c : Bool),
      (orFold step (s, c) l).1 = l.foldl (fun g a => (step g a).1) s := by
  intro l
  induction l with
  | nil => intro s c; rfl
  | cons a t ih => intro s c; exact ih _ _

/-- C8: the pass driver makes exactly one sweep over the function's blocks,
applying to each block the Duplicate-Code Sinker, then the Block-Argument
Sinker, then the Reference-Count Sinker, never revisiting a block (the
final IR is the single left fold of that per-block composition over the
block list); it signals instruction-level analysis invalidation exactly
when the accumulated changed flag is set, and when no change is reported
the IR is left identical. -/
theorem C8_driver_single_sweep (AA : AliasOracle) (f : SILFunction) :
    ((SILCodeMotion.run AA f).2.2 = some InvalidationKind.Instructions ↔
        (SILCodeMotion.run AA f).2.1 = true) ∧
      (SILCodeMotion.run AA f).1 =
        f.blocks.foldl
          (fun g b =>
            (sinkRetainToSuccessors AA
              (sinkArgumentsFromPredecessors (sinkCodeFromPredecessors g b.bid).1 b.bid).1
              b.bid).1)
          f ∧
      ((SILCodeMotion.run AA f).2.1 = false → (SILCodeMotion.run AA f).1 = f) := by
  refine ⟨?_, ?_, run_false_eq AA f⟩
  · cases hb : (orFold (fun g b => processBlock AA g b.bid) (f, false) f.blocks).2 <;>
      simp [SILCodeMotion.run, hb]
  · show (orFold (fun g b => processBlock AA g b.bid) (f, false) f.blocks).1 = _
    rw [orFold_fst_eq]
    have hfn : (fun (g : SILFunction) (a : SILBasicBlock) => (processBlock AA g a.bid).1) =
        fun g b =>
          (sinkRetainToSuccessors AA
            (sinkArgumentsFromPredecessors (sinkCodeFromPredecessors g b.bid).1 b.bid).1
            b.bid).1 := by
      funext g b
      rfl
    rw [hfn]

/-- Witness for C8 at a concrete function: no change is reported, so the IR
is returned identical and no invalidation is signalled. -/
theorem C8_driver_single_sweep_witness :
    (SILCodeMotion.run exAAnone exTriv).1 = exTriv :=
  (C8_driver_single_sweep exAAnone exTriv).2.2 (by decide)

end SILModel

namespace SILModel

/-! Candidate restriction of the Reference-Count Sinker (claim C9). -/

theorem blk_prependSR (g : SILFunction) (c : Nat) (ptr : SILValue) (x : Nat) :
    blk (prependStrongRetain g c ptr) x =
      (blk g x).map (fun b =>
        if b.bid = c then
          { b with insts :=
              { iid := g.nextId, kind := InstKind.strongRetain, ops := [ptr] } :: b.insts }
        else b) := by
  unfold blk prependStrongRetain
  refine find?_bid_map
    (fun b =>
      if b.bid = c then
        { b with insts :=
            { iid := g.nextId, kind := InstKind.strongRetain, ops := [ptr] } :: b.insts }
      else b)
    (fun b => ?_) g.blocks x
  by_cases h : b.bid = c <;> simp [h]

theorem prependSR_fold_head (ptr : SILValue) :
    ∀ (l : List Nat) (g : SILFunction) (n0 : Nat) (s : Nat),
      n0 ≤ g.nextId →
      (∃ sb, blk g s = some sb) →
      (s ∈ l ∨ ∃ sb k rest, blk g s = some sb ∧ n0 ≤ k ∧
          sb.insts = { iid := k, kind := InstKind.strongRetain, ops := [ptr] } :: rest) →
      ∃ sb2 k rest2,
        blk (l.foldl (fun h s2 => prependStrongRetain h s2 ptr) g) s = some sb2 ∧
          n0 ≤ k ∧
          sb2.insts = { iid := k, kind := InstKind.strongRetain, ops := [ptr] } :: rest2 := by
  intro l
  induction l with
  | nil =>
      intro g n0 s _ _ hdis
      rcases hdis with hmem | ⟨sb, k, rest, hblk, hk, hshape⟩
      · exact absurd hmem (List.not_mem_nil s)
      · exact ⟨sb, k, rest, hblk, hk, hshape⟩
  | cons a t ih =>
      intro g n0 s hn0 hex hdis
      rcases hex with ⟨sb, hsb⟩
      have hsbid : sb.bid = s := blk_bid hsb
      have hg2 : blk (prependStrongRetain g a ptr) s =
          (blk g s).map (fun b =>
            if b.bid = a then
              { b with insts :=
                  { iid := g.nextId, kind := InstKind.strongRetain, ops := [ptr] } :: b.insts }
            else b) := blk_prependSR g a ptr s
      have hn2 : n0 ≤ (prependStrongRetain g a ptr).nextId := by
        show n0 ≤ g.nextId + 1
        omega
      have hex2 : ∃ sb2, blk (prependStrongRetain g a ptr) s = some sb2 := by
        rw [hg2, hsb]
        exact ⟨_, rfl⟩
      refine ih (prependStrongRetain g a ptr) n0 s hn2 hex2 ?_
      by_cases hsa : s = a
      · right
        have hba : sb.bid = a := by rw [hsbid]; exact hsa
        refine ⟨{ sb with insts :=
            { iid := g.nextId, kind := InstKind.strongRetain, ops := [ptr] } :: sb.insts },
          g.nextId, sb.insts, ?_, hn0, rfl⟩
        rw [hg2, hsb]
        simp [hba]
      · rcases hdis with hmem | ⟨sb3, k, rest, hblk, hk, hshape⟩
        · rcases List.mem_cons.mp hmem with he | ht
          · exact absurd he hsa
          · exact Or.inl ht
        · right
          have hsb3 : sb3 = sb := by
            rw [hsb] at hblk
            exact (Option.some_inj.mp hblk).symm
          have hba : ¬ sb.bid = a := by rw [hsbid]; exact hsa
          refine ⟨sb, k, rest, ?_, hk, hsb3 ▸ hshape⟩
          rw [hg2, hsb]
          simp [hba]

theorem strongRetain_branch_spec (AA : AliasOracle) (f : SILFunction) (bid : Nat)
    (I : SILInstruction) (succs : List Nat) (r : SILFunction × Bool)
    (hr : r = (if I.kind != InstKind.strongRetain then (f, false)
        else if (instsAfter f bid I.iid).any
            (fun J => AA J (I.ops.getD 0 SILValue.undef)) then (f, false)
        else
          (eraseFromParent
            (succs.foldl
              (fun g s => prependStrongRetain g s (I.ops.getD 0 SILValue.undef)) f)
            I.iid, true)))
    (hsucc : r.2 = true) :
    I.kind = InstKind.strongRetain ∧
      (I.iid < f.nextId →
        ∀ s ∈ succs, (∃ sb, blk f s = some sb) →
          ∃ sb2 k rest2, blk r.1 s = some sb2 ∧ f.nextId ≤ k ∧
            sb2.insts =
              { iid := k, kind := InstKind.strongRetain,
                ops := [I.ops.getD 0 SILValue.undef] } :: rest2) := by
  by_cases h1 : (I.kind != InstKind.strongRetain) = true
  · rw [if_pos h1] at hr
    rw [hr] at hsucc
    exact absurd hsucc (by simp)
  · have hkind : I.kind = InstKind.strongRetain := by
      simpa using h1
    rw [if_neg h1] at hr
    by_cases h2 : ((instsAfter f bid I.iid).any
        (fun J => AA J (I.ops.getD 0 SILValue.undef))) = true
    · rw [if_pos h2] at hr
      rw [hr] at hsucc
      exact absurd hsucc (by simp)
    · rw [if_neg h2] at hr
      refine ⟨hkind, fun hfresh s hs hex => ?_⟩
      have hfold := prependSR_fold_head (I.ops.getD 0 SILValue.undef) succs f f.nextId s
        (Nat.le_refl _) hex (Or.inl hs)
      rcases hfold with ⟨sb2, k, rest2, hblk, hk, hshape⟩
      refine ⟨{ sb2 with insts := sb2.insts.filter (fun i => i.iid != I.iid) }, k,
        rest2.filter (fun i => i.iid != I.iid), ?_, hk, ?_⟩
      · rw [hr]
        show blk (eraseFromParent _ I.iid) s = _
        rw [blk_erase, hblk]
        rfl
      · show sb2.insts.filter (fun i => i.iid != I.iid) = _
        rw [hshape]
        rw [List.filter_cons_of_pos (by
          show (k != I.iid) = true
          simp only [bne_iff_ne, ne_eq]
          omega)]

theorem C9_refcount_candidate_restriction (AA : AliasOracle) (f : SILFunction) (bid : Nat)
    (b : SILBasicBlock) (I : SILInstruction) (hb : blk f bid = some b) :
    (∀ scrut cases, b.term = TermInst.switchEnum scrut cases →
        (tryToSinkRefCountInst AA f bid I).2 = true →
        I.kind = InstKind.retainValue ∧ I.ops.getD 0 SILValue.undef = scrut) ∧
      (isCondBrOrCastBr b.term = true →
        (tryToSinkRefCountInst AA f bid I).2 = true →
        I.kind = InstKind.strongRetain ∧
          (I.iid < f.nextId →
            ∀ s ∈ termSuccs b.term, (∃ sb, blk f s = some sb) →
              ∃ sb2 k rest2, blk (tryToSinkRefCountInst AA f bid I).1 s = some sb2 ∧
                f.nextId ≤ k ∧
                sb2.insts =
                  { iid := k, kind := InstKind.strongRetain,
                    ops := [I.ops.getD 0 SILValue.undef] } :: rest2)) ∧
      (refCountSinkHandles b.term = false → tryToSinkRefCountInst AA f bid I = (f, false)) := by
  refine ⟨?_, ?_, ?_⟩
  · intro scrut cases hterm hsucc
    simp only [tryToSinkRefCountInst, hb, hterm] at hsucc
    unfold tryToSinkRefCountAcrossSwitch at hsucc
    by_cases h1 : (I.kind != InstKind.retainValue) = true
    · rw [if_pos h1] at hsucc
      exact absurd hsucc (by simp)
    · rw [if_neg h1] at hsucc
      by_cases h2 : (I.ops.getD 0 SILValue.undef != scrut) = true
      · rw [if_pos h2] at hsucc
        exact absurd hsucc (by simp)
      · exact ⟨by simpa using h1, by simpa using h2⟩
  · intro hcc hsucc
    cases hterm : b.term with
    | condBr c td ta fd fa =>
        have hred : tryToSinkRefCountInst AA f bid I =
            (if I.kind != InstKind.strongRetain then (f, false)
             else if (instsAfter f bid I.iid).any
                 (fun J => AA J (I.ops.getD 0 SILValue.undef)) then (f, false)
             else
               (eraseFromParent
                 ((termSuccs (TermInst.condBr c td ta fd fa)).foldl
                   (fun g s => prependStrongRetain g s (I.ops.getD 0 SILValue.undef)) f)
                 I.iid, true)) := by
          simp only [tryToSinkRefCountInst, hb, hterm]
        exact strongRetain_branch_spec AA f bid I (termSuccs (TermInst.condBr c td ta fd fa))
          _ hred hsucc
    | checkedCastBr o sd fd =>
        have hred : tryToSinkRefCountInst AA f bid I =
            (if I.kind != InstKind.strongRetain then (f, false)
             else if (instsAfter f bid I.iid).any
                 (fun J => AA J (I.ops.getD 0 SILValue.undef)) then (f, false)
             else
               (eraseFromParent
                 ((termSuccs (TermInst.checkedCastBr o sd fd)).foldl
                   (fun g s => prependStrongRetain g s (I.ops.getD 0 SILValue.undef)) f)
                 I.iid, true)) := by
          simp only [tryToSinkRefCountInst, hb, hterm]
        exact strongRetain_branch_spec AA f bid I (termSuccs (TermInst.checkedCastBr o sd fd))
          _ hred hsucc
    | br d args => rw [hterm] at hcc; simp [isCondBrOrCastBr] at hcc
    | switchEnum scrut cases => rw [hterm] at hcc; simp [isCondBrOrCastBr] at hcc
    | ret v => rw [hterm] at hcc; simp [isCondBrOrCastBr] at hcc
  · intro hnh
    cases hterm : b.term with
    | br d args => simp [tryToSinkRefCountInst, hb, hterm]
    | ret v => simp [tryToSinkRefCountInst, hb, hterm]
    | condBr c td ta fd fa => rw [hterm] at hnh; simp [refCountSinkHandles] at hnh
    | checkedCastBr o sd fd => rw [hterm] at hnh; simp [refCountSinkHandles] at hnh
    | switchEnum scrut cases => rw [hterm] at hnh; simp [refCountSinkHandles] at hnh

end SILModel

namespace SILModel

/-- Witness for C9: at a block whose terminator is a plain return, the
Reference-Count Sinker declines even a `strong_retain` candidate and leaves
the IR unchanged. -/
theorem C9_refcount_candidate_restriction_witness :
    tryToSinkRefCountInst exAAnone exTriv 0
        { iid := 1, kind := InstKind.strongRetain, ops := [SILValue.undef] } =
      (exTriv, false) :=
  (C9_refcount_candidate_restriction exAAnone exTriv 0
      { bid := 0, nargs := 0, insts := [], term := TermInst.ret SILValue.undef }
      { iid := 1, kind := InstKind.strongRetain, ops := [SILValue.undef] } rfl).2.2
    (by decide)

end SILModel

namespace SILModel

/-! The Reference-Count Sinker declines (claim C3). -/

theorem sum_two_le {α : Type} (cnt : α → Nat) {l : List α} {x y : α}
    (hx : x ∈ l) (hy : y ∈ l) (hne : x ≠ y) : cnt x + cnt y ≤ (l.map cnt).sum := by
  rcases List.append_of_mem hx with ⟨s, t, rfl⟩
  have hy2 : y ∈ s ∨ y ∈ t := by
    rcases List.mem_append.mp hy with h | h
    · exact Or.inl h
    · rcases List.mem_cons.mp h with h | h
      · exact absurd h.symm hne
      · exact Or.inr h
  have hsum : ((s ++ x :: t).map cnt).sum =
      (s.map cnt).sum + (cnt x + (t.map cnt).sum) := by
    simp [List.sum_append]
  rcases hy2 with h | h
  · have hle : cnt y ≤ (s.map cnt).sum :=
      List.single_le_sum (fun _ _ => Nat.zero_le _) _ (List.mem_map_of_mem cnt h)
    omega
  · have hle : cnt y ≤ (t.map cnt).sum :=
      List.single_le_sum (fun _ _ => Nat.zero_le _) _ (List.mem_map_of_mem cnt h)
    omega

theorem predEdges_two {f : SILFunction} {s : Nat} {b p : SILBasicBlock}
    (hbm : b ∈ f.blocks) (hpm : p ∈ f.blocks) (hne : b ≠ p)
    (hbs : s ∈ termSuccs b.term) (hps : s ∈ termSuccs p.term) : 2 ≤ predEdges f s := by
  unfold predEdges
  have h1 : 0 < (termSuccs b.term).count s := List.count_pos_iff.mpr hbs
  have h2 : 0 < (termSuccs p.term).count s := List.count_pos_iff.mpr hps
  have hle : (termSuccs b.term).count s + (termSuccs p.term).count s ≤
      (f.blocks.map (fun q => (termSuccs q.term).count s)).sum :=
    sum_two_le (fun q => (termSuccs q.term).count s) hbm hpm hne
  omega

theorem refcountSinker_declines_shared_succ (AA : AliasOracle) (f : SILFunction)
    (bid : Nat) (b : SILBasicBlock) (hb : blk f bid = some b)
    (hex : ∃ s ∈ termSuccs b.term, ∃ p ∈ preds f s, p.bid ≠ bid) :
    sinkRetainToSuccessors AA f bid = (f, false) := by
  rcases hex with ⟨s, hs, p, hp, hpne⟩
  have hbm : b ∈ f.blocks := List.mem_of_find?_eq_some hb
  have hpm : p ∈ f.blocks := List.mem_of_mem_filter hp
  have hps : s ∈ termSuccs p.term := by
    have hc := List.of_mem_filter hp
    simpa using hc
  have hbp : b ≠ p := fun he => hpne (by rw [← he]; exact blk_bid hb)
  have h2 : 2 ≤ predEdges f s := predEdges_two hbm hpm hbp hs hps
  have hall : ((termSuccs b.term).all (fun q => predEdges f q == 1)) = false := by
    rw [List.all_eq_false]
    refine ⟨s, hs, ?_⟩
    simp only [beq_iff_eq]
    omega
  simp only [sinkRetainToSuccessors, hb, hall]
  rfl

theorem tryToSink_switch_declines (AA : AliasOracle) (f : SILFunction) (bid : Nat)
    (b : SILBasicBlock) (scrut : SILValue) (cases : List (EnumElt × Nat))
    (I : SILInstruction) (hb : blk f bid = some b)
    (hterm : b.term = TermInst.switchEnum scrut cases)
    (hdis : ¬(I.kind = InstKind.retainValue ∧ I.ops.getD 0 SILValue.undef = scrut) ∨
      ∃ J ∈ instsAfter f bid I.iid, AA J scrut = true) :
    tryToSinkRefCountInst AA f bid I = (f, false) := by
  simp only [tryToSinkRefCountInst, hb, hterm]
  unfold tryToSinkRefCountAcrossSwitch
  by_cases h1 : (I.kind != InstKind.retainValue) = true
  · rw [if_pos h1]
  · rw [if_neg h1]
    by_cases h2 : (I.ops.getD 0 SILValue.undef != scrut) = true
    · rw [if_pos h2]
    · rw [if_neg h2]
      have hk : I.kind = InstKind.retainValue := by simpa using h1
      have hp : I.ops.getD 0 SILValue.undef = scrut := by simpa using h2
      rcases hdis with hno | ⟨J, hJ, hAA⟩
      · exact absurd ⟨hk, hp⟩ hno
      · rw [if_pos (List.any_eq_true.mpr ⟨J, hJ, by rw [hp]; exact hAA⟩)]

theorem orFold_const {α : Type} (step : SILFunction → α → SILFunction × Bool) :
    ∀ (l : List α) (f : SILFunction), (∀ a ∈ l, step f a = (f, false)) →
      orFold step (f, false) l = (f, false) := by
  intro l
  induction l with
  | nil => intro f _; rfl
  | cons a t ih =>
      intro f h
      have ha := h a (List.mem_cons_self a t)
      show orFold step ((step f a).1, false || (step f a).2) t = (f, false)
      rw [ha]
      exact ih f (fun x hx => h x (List.mem_cons_of_mem a hx))

theorem refcountSinker_declines_blocked (AA : AliasOracle) (f : SILFunction) (bid : Nat)
    (b : SILBasicBlock) (scrut : SILValue) (cases : List (EnumElt × Nat))
    (hb : blk f bid = some b) (hterm : b.term = TermInst.switchEnum scrut cases)
    (hall : ∀ I ∈ b.insts,
      ¬(I.kind = InstKind.retainValue ∧ I.ops.getD 0 SILValue.undef = scrut) ∨
        ∃ J ∈ instsAfter f bid I.iid, AA J scrut = true) :
    sinkRetainToSuccessors AA f bid = (f, false) := by
  simp only [sinkRetainToSuccessors, hb]
  cases hguard : ((termSuccs b.term).all (fun s => predEdges f s == 1)) with
  | false => rfl
  | true =>
      simp only [Bool.not_true, Bool.false_eq_true, if_false]
      cases hinsts : b.insts with
      | nil => rfl
      | cons i rest =>
          refine orFold_const _ _ f (fun a ha => ?_)
          have ham : a ∈ b.insts := by
            rw [hinsts]
            exact List.mem_reverse.mp (hinsts ▸ ha)
          exact tryToSink_switch_declines AA f bid b scrut cases a hb hterm (hall a ham)

/-- C3: the Reference-Count Sinker performs no transform and reports no
change whenever some successor of the block has a predecessor other than
the block itself; and for a `switch_enum` block in which every instruction
either is not a retain of the scrutinee or has a possible decrement between
it and the terminator (per the alias oracle), the whole block reports
`changed = false` with the IR untouched. -/
theorem C3_refcount_sinker_declines :
    (∀ (AA : AliasOracle) (f : SILFunction) (bid : Nat) (b : SILBasicBlock),
        blk f bid = some b →
        (∃ s ∈ termSuccs b.term, ∃ p ∈ preds f s, p.bid ≠ bid) →
        sinkRetainToSuccessors AA f bid = (f, false)) ∧
      (∀ (AA : AliasOracle) (f : SILFunction) (bid : Nat) (b : SILBasicBlock)
          (scrut : SILValue) (cases : List (EnumElt × Nat)),
        blk f bid = some b → b.term = TermInst.switchEnum scrut cases →
        (∀ I ∈ b.insts,
          ¬(I.kind = InstKind.retainValue ∧ I.ops.getD 0 SILValue.undef = scrut) ∨
            ∃ J ∈ instsAfter f bid I.iid, AA J scrut = true) →
        sinkRetainToSuccessors AA f bid = (f, false)) :=
  ⟨fun AA f bid b hb hex => refcountSinker_declines_shared_succ AA f bid b hb hex,
   fun AA f bid b scrut cases hb hterm hall =>
     refcountSinker_declines_blocked AA f bid b scrut cases hb hterm hall⟩

/-- Witness for C3 at the concrete scenario: a retain of the switch
scrutinee with an intervening instruction the oracle says may decrement the
pointer; the block reports no change and the IR is identical. -/
theorem C3_refcount_sinker_declines_witness :
    sinkRetainToSuccessors exAAdec exC3 0 = (exC3, false) :=
  C3_refcount_sinker_declines.2 exAAdec exC3 0
    { bid := 0, nargs := 1,
      insts := [{ iid := 1, kind := InstKind.retainValue, ops := [SILValue.arg 0 0] },
                { iid := 2, kind := InstKind.generic 5 false, ops := [SILValue.arg 0 0] }],
      term := TermInst.switchEnum (SILValue.arg 0 0) [(⟨0, true⟩, 1), (⟨1, false⟩, 2)] }
    (SILValue.arg 0 0) [(⟨0, true⟩, 1), (⟨1, false⟩, 2)] rfl rfl (by decide)

end SILModel

namespace SILModel

/-! Sinking a retain across a `switch_enum` (claim C2). -/

theorem blk_mapBlocks (g : SILFunction) (fn : SILBasicBlock → SILBasicBlock) (n2 : Nat)
    (hfn : ∀ b, (fn b).bid = b.bid) (x : Nat) :
    blk { blocks := g.blocks.map fn, nextId := n2 } x = (blk g x).map fn := by
  unfold blk
  exact find?_bid_map fn hfn g.blocks x

theorem createRCOP_noArg (g : SILFunction) (sbid : Nat) (I : SILInstruction) (elt : EnumElt)
    (h : elt.hasArg = false) : createRefCountOpForPayload g sbid I elt = g := by
  unfold createRefCountOpForPayload
  simp [h]

theorem createRCOP_nextId (g : SILFunction) (sbid : Nat) (I : SILInstruction)
    (elt : EnumElt) : g.nextId ≤ (createRefCountOpForPayload g sbid I elt).nextId := by
  unfold createRefCountOpForPayload
  cases h : elt.hasArg <;> simp [h]

theorem blk_createRCOP_ne (g : SILFunction) (sbid : Nat) (I : SILInstruction)
    (elt : EnumElt) (x : Nat) (hx : x ≠ sbid) :
    blk (createRefCountOpForPayload g sbid I elt) x = blk g x := by
  unfold createRefCountOpForPayload
  cases h : elt.hasArg with
  | false => simp [h]
  | true =>
      simp only [h, Bool.not_true, Bool.false_eq_true, if_false]
      rw [blk_mapBlocks g _ _ (fun b => by by_cases hbb : b.bid = sbid <;> simp [hbb]) x]
      cases hbx : blk g x with
      | none => rfl
      | some bx =>
          have hbid : bx.bid = x := blk_bid hbx
          simp only [Option.map_some']
          rw [if_neg (by rw [hbid]; exact hx)]

theorem blk_createRCOP_self (g : SILFunction) (sbid : Nat) (I : SILInstruction)
    (elt : EnumElt) (cb : SILBasicBlock) (h : elt.hasArg = true)
    (hcb : blk g sbid = some cb) :
    blk (createRefCountOpForPayload g sbid I elt) sbid =
      some { cb with insts :=
        { iid := g.nextId, kind := InstKind.uncheckedEnumData elt.eid,
          ops := [I.ops.getD 0 SILValue.undef] } ::
        { iid := g.nextId + 1,
          kind := if I.kind = InstKind.retainValue then InstKind.retainValue
                  else InstKind.releaseValue,
          ops := [SILValue.res g.nextId] } :: cb.insts } := by
  unfold createRefCountOpForPayload
  simp only [h, Bool.not_true, Bool.false_eq_true, if_false]
  rw [blk_mapBlocks g _ _ (fun b => by by_cases hbb : b.bid = sbid <;> simp [hbb]) sbid]
  rw [hcb]
  have hbid : cb.bid = sbid := blk_bid hcb
  simp only [Option.map_some']
  rw [if_pos hbid]

theorem casesFold_nextId (I : SILInstruction) :
    ∀ (l : List (EnumElt × Nat)) (g : SILFunction),
      g.nextId ≤ (l.foldl (fun h c => createRefCountOpForPayload h c.2 I c.1) g).nextId := by
  intro l
  induction l with
  | nil => intro g; exact Nat.le_refl _
  | cons c t ih =>
      intro g
      exact Nat.le_trans (createRCOP_nextId g c.2 I c.1) (ih _)

theorem casesFold_untouched (I : SILInstruction) :
    ∀ (l : List (EnumElt × Nat)) (g : SILFunction) (x : Nat), x ∉ l.map Prod.snd →
      blk (l.foldl (fun h c => createRefCountOpForPayload h c.2 I c.1) g) x = blk g x := by
  intro l
  induction l with
  | nil => intro g x _; rfl
  | cons c t ih =>
      intro g x hx
      simp only [List.map_cons, List.mem_cons, not_or] at hx
      show blk (t.foldl _ (createRefCountOpForPayload g c.2 I c.1)) x = blk g x
      rw [ih _ x hx.2, blk_createRCOP_ne g c.2 I c.1 x hx.1]

theorem casesFold_mem (I : SILInstruction) :
    ∀ (l : List (EnumElt × Nat)) (g : SILFunction),
      (l.map Prod.snd).Nodup →
      ∀ (e : EnumElt) (sb : Nat), (e, sb) ∈ l → ∀ cb, blk g sb = some cb →
        (e.hasArg = false →
          blk (l.foldl (fun h c => createRefCountOpForPayload h c.2 I c.1) g) sb = some cb) ∧
        (e.hasArg = true →
          ∃ u rt : SILInstruction,
            blk (l.foldl (fun h c => createRefCountOpForPayload h c.2 I c.1) g) sb =
              some { cb with insts := u :: rt :: cb.insts } ∧
            u.kind = InstKind.uncheckedEnumData e.eid ∧
            u.ops = [I.ops.getD 0 SILValue.undef] ∧
            rt.kind = (if I.kind = InstKind.retainValue then InstKind.retainValue
                       else InstKind.releaseValue) ∧
            rt.ops = [SILValue.res u.iid] ∧ g.nextId ≤ u.iid ∧ g.nextId ≤ rt.iid) := by
  intro l
  induction l with
  | nil => intro g _ e sb hmem; exact absurd hmem (List.not_mem_nil _)
  | cons c t ih =>
      intro g hnd e sb hmem cb hcb
      simp only [List.map_cons, List.nodup_cons] at hnd
      rcases List.mem_cons.mp hmem with he | ht
      · subst he
        have hnot : sb ∉ t.map Prod.snd := hnd.1
        constructor
        · intro hna
          show blk (t.foldl _ (createRefCountOpForPayload g sb I e)) sb = some cb
          rw [casesFold_untouched I t _ sb hnot]
          rw [createRCOP_noArg g sb I e hna]
          exact hcb
        · intro hha
          refine
            ⟨{ iid := g.nextId, kind := InstKind.uncheckedEnumData e.eid,
                 ops := [I.ops.getD 0 SILValue.undef] },
             { iid := g.nextId + 1,
                 kind := (if I.kind = InstKind.retainValue then InstKind.retainValue
                   else InstKind.releaseValue),
                 ops := [SILValue.res g.nextId] },
             ?_, rfl, rfl, rfl, rfl, Nat.le_refl _, Nat.le_succ _⟩
          show blk (t.foldl _ (createRefCountOpForPayload g sb I e)) sb = _
          rw [casesFold_untouched I t _ sb hnot]
          exact blk_createRCOP_self g sb I e cb hha hcb
      · have hsb2 : sb ∈ t.map Prod.snd := by
          exact List.mem_map_of_mem Prod.snd ht
        have hne : sb ≠ c.2 := fun hq => hnd.1 (hq ▸ hsb2)
        have hcb2 : blk (createRefCountOpForPayload g c.2 I c.1) sb = some cb := by
          rw [blk_createRCOP_ne g c.2 I c.1 sb hne]
          exact hcb
        have hih := ih (createRefCountOpForPayload g c.2 I c.1) hnd.2 e sb ht cb hcb2
        refine ⟨hih.1, fun hha => ?_⟩
        rcases hih.2 hha with ⟨u, rt, hblk, hu1, hu2, hr1, hr2, hnu, hnr⟩
        have hmono : g.nextId ≤ (createRefCountOpForPayload g c.2 I c.1).nextId :=
          createRCOP_nextId g c.2 I c.1
        exact ⟨u, rt, hblk, hu1, hu2, hr1, hr2, Nat.le_trans hmono hnu,
          Nat.le_trans hmono hnr⟩

end SILModel

namespace SILModel

/-- C2: for a block whose terminator is a `switch_enum` on `scrut`, holding
a `retain_value` of `scrut` with no instruction between it and the
terminator that may decrement `scrut` (per the oracle): the retain is
deleted from the block, every payload-carrying arm receives at its front a
fresh `unchecked_enum_data` projection of the scrutinee followed by a
`retain_value` of that projected payload (not of the boxed scrutinee), and
every payload-free arm receives nothing.  (The callers guarantee each
successor has the block as sole predecessor; `tryToSinkRefCountInst` itself
performs the transformation described here.) -/
theorem C2_sink_retain_across_switch (AA : AliasOracle) (f : SILFunction) (bid : Nat)
    (b : SILBasicBlock) (scrut : SILValue) (cases : List (EnumElt × Nat))
    (I : SILInstruction)
    (hb : blk f bid = some b) (hterm : b.term = TermInst.switchEnum scrut cases)
    (hkind : I.kind = InstKind.retainValue) (hops : I.ops = [scrut])
    (hnodec : ∀ J ∈ instsAfter f bid I.iid, AA J scrut = false)
    (hnodup : (cases.map Prod.snd).Nodup)
    (hnotbid : bid ∉ cases.map Prod.snd)
    (hfresh : I.iid < f.nextId)
    (hscrutres : ∀ m, scrut = SILValue.res m → m < f.nextId) :
    (tryToSinkRefCountInst AA f bid I).2 = true ∧
      blk (tryToSinkRefCountInst AA f bid I).1 bid =
        some { b with insts := b.insts.filter (fun j => j.iid != I.iid) } ∧
      ∀ e sb, (e, sb) ∈ cases → ∀ cb, blk f sb = some cb →
        (∀ j ∈ cb.insts, j.iid ≠ I.iid) →
        (e.hasArg = false → blk (tryToSinkRefCountInst AA f bid I).1 sb = some cb) ∧
        (e.hasArg = true →
          ∃ u rt : SILInstruction,
            blk (tryToSinkRefCountInst AA f bid I).1 sb =
              some { cb with insts := u :: rt :: cb.insts } ∧
            u.kind = InstKind.uncheckedEnumData e.eid ∧ u.ops = [scrut] ∧
            rt.kind = InstKind.retainValue ∧ rt.ops = [SILValue.res u.iid] ∧
            rt.ops ≠ [scrut] ∧ f.nextId ≤ u.iid) := by
  have hptr : I.ops.getD 0 SILValue.undef = scrut := by rw [hops]; rfl
  have hr : tryToSinkRefCountInst AA f bid I =
      (eraseFromParent
        (cases.foldl (fun g c => createRefCountOpForPayload g c.2 I c.1) f) I.iid,
       true) := by
    simp only [tryToSinkRefCountInst, hb, hterm]
    unfold tryToSinkRefCountAcrossSwitch
    have hc1 : (I.kind != InstKind.retainValue) = false := by simp [hkind]
    have hc2 : (I.ops.getD 0 SILValue.undef != scrut) = false := by rw [hptr]; simp
    have hc3 : ((instsAfter f bid I.iid).any
        (fun J => AA J (I.ops.getD 0 SILValue.undef))) = false := by
      rw [List.any_eq_false]
      intro J hJ
      rw [hptr]
      simp [hnodec J hJ]
    simp only [hc1, hc2, hc3, Bool.false_eq_true, if_false]
  refine ⟨by rw [hr], ?_, ?_⟩
  · have hfold : blk (cases.foldl (fun g c => createRefCountOpForPayload g c.2 I c.1) f)
        bid = some b := by
      rw [casesFold_untouched I cases f bid hnotbid]
      exact hb
    have h2 : blk (eraseFromParent
        (cases.foldl (fun g c => createRefCountOpForPayload g c.2 I c.1) f) I.iid) bid =
        some { b with insts := b.insts.filter (fun j => j.iid != I.iid) } := by
      rw [blk_erase, hfold]
      rfl
    rw [hr]
    exact h2
  · intro e sb hmem cb hcb hnoI
    have hstep := casesFold_mem I cases f hnodup e sb hmem cb hcb
    have hfe : cb.insts.filter (fun i => i.iid != I.iid) = cb.insts :=
      List.filter_eq_self.mpr (fun j hj => by simpa using hnoI j hj)
    constructor
    · intro hna
      have h1 := hstep.1 hna
      have h2 : blk (eraseFromParent
          (cases.foldl (fun g c => createRefCountOpForPayload g c.2 I c.1) f) I.iid) sb =
          some cb := by
        rw [blk_erase, h1]
        simp only [Option.map_some']
        rw [hfe]
      rw [hr]
      exact h2
    · intro hha
      rcases hstep.2 hha with ⟨u, rt, hblk, hu1, hu2, hr1, hr2, hnu, hnr⟩
      have hfu : (u.iid != I.iid) = true := by
        simp only [bne_iff_ne, ne_eq]
        omega
      have hfr : (rt.iid != I.iid) = true := by
        simp only [bne_iff_ne, ne_eq]
        omega
      refine ⟨u, rt, ?_, hu1, by rw [hu2, hptr], by rw [hr1, if_pos hkind], hr2, ?_, hnu⟩
      · have h2 : blk (eraseFromParent
            (cases.foldl (fun g c => createRefCountOpForPayload g c.2 I c.1) f) I.iid) sb =
            some { cb with insts := u :: rt :: cb.insts } := by
          rw [blk_erase, hblk]
          simp only [Option.map_some']
          have h1 : List.filter (fun i : SILInstruction => i.iid != I.iid)
              (u :: rt :: cb.insts) =
              u :: List.filter (fun i : SILInstruction => i.iid != I.iid) (rt :: cb.insts) :=
            List.filter_cons_of_pos hfu
          have h2 : List.filter (fun i : SILInstruction => i.iid != I.iid) (rt :: cb.insts) =
              rt :: List.filter (fun i : SILInstruction => i.iid != I.iid) cb.insts :=
            List.filter_cons_of_pos hfr
          rw [h1, h2, hfe]
        rw [hr]
        exact h2
      · rw [hr2]
        intro heq
        have hsc : scrut = SILValue.res u.iid := by
          injection heq with h1 _
          exact h1.symm
        have := hscrutres u.iid hsc
        omega

/-- Witness for C2 at the concrete two-arm `switch_enum` scenario: the
transformation succeeds. -/
theorem C2_sink_retain_across_switch_witness :
    (tryToSinkRefCountInst exAAnone exC2 0
        { iid := 1, kind := InstKind.retainValue, ops := [SILValue.arg 0 0] }).2 = true :=
  (C2_sink_retain_across_switch exAAnone exC2 0
      { bid := 0, nargs := 1,
        insts := [{ iid := 1, kind := InstKind.retainValue, ops := [SILValue.arg 0 0] }],
        term := TermInst.switchEnum (SILValue.arg 0 0) [(⟨0, true⟩, 1), (⟨1, false⟩, 2)] }
      (SILValue.arg 0 0) [(⟨0, true⟩, 1), (⟨1, false⟩, 2)]
      { iid := 1, kind := InstKind.retainValue, ops := [SILValue.arg 0 0] }
      rfl rfl rfl rfl (by decide) (by decide) (by decide) (by decide)
      (fun m h => SILValue.noConfusion h)).1

end SILModel

namespace SILModel

/-! Abandoning on non-branch predecessors in the Block-Argument Sinker
(claim C5). -/

/-- Counterexample to C5 as stated: the clone-collection loop of
`sinkArgument` skips the first predecessor, so a first predecessor whose
terminator is a single-case `switch_enum` (not a branch form) does not
abort the index — the transformation fires (here grabbing the switch
scrutinee as the argument value) and mutates the IR. -/
theorem C5_first_predecessor_terminator_unchecked :
    ((preds exC5 2).head?.map (fun p => isBranchForm p.term)) = some false ∧
      (sinkArgument exC5 2 0).2 = true ∧
      (blk (sinkArgument exC5 2 0).1 1).map SILBasicBlock.insts = some [] := by
  decide

theorem collectClones_none (f : SILFunction) (argNum : Nat) (fsi : SILInstruction) :
    ∀ (l : List SILBasicBlock) (p : SILBasicBlock), p ∈ l → isBranchForm p.term = false →
      collectClones f argNum fsi l = none := by
  intro l
  induction l with
  | nil => intro p hp _; exact absurd hp (List.not_mem_nil p)
  | cons q qs ih =>
      intro p hp hbr
      cases hq : isBranchForm q.term with
      | false => simp only [collectClones, hq, Bool.false_eq_true, if_false]
      | true =>
          have hpq : p ∈ qs := by
            rcases List.mem_cons.mp hp with h | h
            · subst h
              rw [hq] at hbr
              exact Bool.noConfusion hbr
            · exact h
          simp only [collectClones, hq, if_true]
          cases hdef : defInst f (getTermOperand q.term argNum) with
          | none => rfl
          | some si =>
              show (if (countUses f (SILValue.res si.iid) == 1 && isIdenticalTo si fsi) = true
                  then Option.map (fun cs => SILValue.res si.iid :: cs)
                    (collectClones f argNum fsi qs)
                  else none) = none
              by_cases hcond :
                  (countUses f (SILValue.res si.iid) == 1 && isIdenticalTo si fsi) = true
              · rw [if_pos hcond, ih p hpq hbr]
                rfl
              · rw [if_neg hcond]

/-- C5 amended: in the Block-Argument Sinker, for every block-argument
index, if any predecessor other than the first has a terminator that is not
an unconditional branch or a conditional branch, sinking of that argument
index is abandoned entirely, returning no change for that index without
modifying the IR.  (The first predecessor's terminator is never subjected to
this check.) -/
theorem C5_nonbranch_other_pred_aborts (f : SILFunction) (bid argNum : Nat)
    (p0 p : SILBasicBlock) (rest : List SILBasicBlock)
    (hpreds : preds f bid = p0 :: rest) (hp : p ∈ rest)
    (hbr : isBranchForm p.term = false) :
    sinkArgument f bid argNum = (f, false) := by
  simp only [sinkArgument, hpreds]
  cases hdef : defInst f (getTermOperand p0.term argNum) with
  | none => rfl
  | some fsi =>
      show (if (countUses f (SILValue.res fsi.iid) != 1) = true then (f, false)
          else if mayHaveSideEffects fsi.kind = true then (f, false)
          else
            match collectClones f argNum fsi rest with
            | none => (f, false)
            | some clones0 =>
                (sinkArgumentApply f bid argNum fsi
                  (getTermOperand p0.term argNum :: clones0), true)) =
        ((f, false) : SILFunction × Bool)
      by_cases h1 : (countUses f (SILValue.res fsi.iid) != 1) = true
      · rw [if_pos h1]
      · rw [if_neg h1]
        by_cases h2 : mayHaveSideEffects fsi.kind = true
        · rw [if_pos h2]
        · rw [if_neg h2]
          rw [collectClones_none f argNum fsi rest p hp hbr]

/-- Witness for the amended C5: with the non-branch terminator on the
second predecessor, the index is abandoned and the IR is unchanged. -/
theorem C5_nonbranch_other_pred_aborts_witness :
    sinkArgument exC5b 2 0 = (exC5b, false) :=
  C5_nonbranch_other_pred_aborts exC5b 2 0
    { bid := 0, nargs := 0,
      insts := [{ iid := 10, kind := InstKind.generic 3 false, ops := [] }],
      term := TermInst.br 2 [SILValue.res 10] }
    { bid := 1, nargs := 0,
      insts := [{ iid := 11, kind := InstKind.generic 3 false, ops := [] }],
      term := TermInst.switchEnum (SILValue.res 11) [(⟨0, true⟩, 2)] }
    [{ bid := 1, nargs := 0,
       insts := [{ iid := 11, kind := InstKind.generic 3 false, ops := [] }],
       term := TermInst.switchEnum (SILValue.res 11) [(⟨0, true⟩, 2)] }]
    (by decide) (by decide) (by decide)

end SILModel

namespace SILModel

/-! The Duplicate-Code Sinker's successful sink (claim C4). -/

/-- Counterexample to C4 as stated: with three predecessors, a single sink
event (one instruction moved into the successor) erases two duplicates and
records two sunk events, not one. -/
theorem C4_sunk_count_counterexample :
    (sinkCodeFromPredecessors exC4 3).2.1 = true ∧
      (sinkCodeFromPredecessors exC4 3).2.2 = 2 ∧
      (blk (sinkCodeFromPredecessors exC4 3).1 3).map
          (fun b => b.insts.map SILInstruction.iid) = some [1] := by
  decide

theorem res_ne_of_iid_ne {a b : Nat} (h : a ≠ b) : SILValue.res a ≠ SILValue.res b :=
  fun he => h (by injection he)

theorem dupStep_none (xid : Nat) (g : SILFunction) (d : SILInstruction) {m : Nat}
    (h : findInst g m = none) :
    findInst (eraseFromParent
      (replaceAllUsesWith g (SILValue.res d.iid) (SILValue.res xid)) d.iid) m = none := by
  apply findInst_erase_of_none
  rw [findInst_rauw, h]
  rfl

theorem dupFold_none (xid : Nat) :
    ∀ (ds : List SILInstruction) (g : SILFunction) (m : Nat), findInst g m = none →
      findInst (ds.foldl (fun g d => eraseFromParent
        (replaceAllUsesWith g (SILValue.res d.iid) (SILValue.res xid)) d.iid) g) m = none := by
  intro ds
  induction ds with
  | nil => intro g m h; exact h
  | cons d t ih => intro g m h; exact ih _ m (dupStep_none xid g d h)

theorem dupFold_zero (xid : Nat) :
    ∀ (ds : List SILInstruction) (g : SILFunction) (v : SILValue), v ≠ SILValue.res xid →
      countUses g v = 0 →
      countUses (ds.foldl (fun g d => eraseFromParent
        (replaceAllUsesWith g (SILValue.res d.iid) (SILValue.res xid)) d.iid) g) v = 0 := by
  intro ds
  induction ds with
  | nil => intro g v _ h; exact h
  | cons d t ih =>
      intro g v hne h
      exact ih _ v hne (countUses_erase_zero _ _ (countUses_rauw_zero _ _ h hne))

theorem dupFold_erased (xid : Nat) :
    ∀ (ds : List SILInstruction) (g : SILFunction), (∀ e ∈ ds, e.iid ≠ xid) →
      ∀ e ∈ ds,
        findInst (ds.foldl (fun g d => eraseFromParent
          (replaceAllUsesWith g (SILValue.res d.iid) (SILValue.res xid)) d.iid) g) e.iid =
            none ∧
        countUses (ds.foldl (fun g d => eraseFromParent
          (replaceAllUsesWith g (SILValue.res d.iid) (SILValue.res xid)) d.iid) g)
            (SILValue.res e.iid) = 0 := by
  intro ds
  induction ds with
  | nil => intro g _ e he; exact absurd he (List.not_mem_nil e)
  | cons d t ih =>
      intro g hne e he
      rcases List.mem_cons.mp he with hed | het
      · subst hed
        have hdx : e.iid ≠ xid := hne e (List.mem_cons_self e t)
        constructor
        · exact dupFold_none xid t _ e.iid (findInst_erase_self _ e.iid)
        · refine dupFold_zero xid t _ _ (res_ne_of_iid_ne hdx) ?_
          exact countUses_erase_zero _ _
            (countUses_rauw_self _ (res_ne_of_iid_ne (fun hx => hdx hx.symm)))
      · exact ih _ (fun x hx => hne x (List.mem_cons_of_mem d hx)) e het

theorem dupStep_head (bid xid : Nat) (g : SILFunction) (d : SILInstruction)
    (hd : d.iid ≠ xid)
    (hh : ∃ b2, blk g bid = some b2 ∧ b2.insts.head?.map SILInstruction.iid = some xid) :
    ∃ b2, blk (eraseFromParent
        (replaceAllUsesWith g (SILValue.res d.iid) (SILValue.res xid)) d.iid) bid =
          some b2 ∧
      b2.insts.head?.map SILInstruction.iid = some xid := by
  rcases hh with ⟨b2, hb2, hhead⟩
  rw [blk_erase, blk_rauw, hb2]
  simp only [Option.map_some']
  cases hins : b2.insts with
  | nil => rw [hins] at hhead; exact absurd hhead (by simp)
  | cons i0 t =>
      rw [hins] at hhead
      have hi0 : i0.iid = xid := by simpa using hhead
      refine ⟨_, rfl, ?_⟩
      show ((List.map (substInst (SILValue.res d.iid) (SILValue.res xid)) (i0 :: t)).filter
        (fun i => i.iid != d.iid)).head?.map SILInstruction.iid = some xid
      have hpos : ((substInst (SILValue.res d.iid) (SILValue.res xid) i0).iid != d.iid) =
          true := by
        show (i0.iid != d.iid) = true
        simp only [bne_iff_ne, ne_eq, hi0]
        exact fun hx => hd hx.symm
      rw [List.map_cons]
      have hflt : List.filter (fun i : SILInstruction => i.iid != d.iid)
          (substInst (SILValue.res d.iid) (SILValue.res xid) i0 ::
            List.map (substInst (SILValue.res d.iid) (SILValue.res xid)) t) =
          substInst (SILValue.res d.iid) (SILValue.res xid) i0 ::
            List.filter (fun i : SILInstruction => i.iid != d.iid)
              (List.map (substInst (SILValue.res d.iid) (SILValue.res xid)) t) :=
        List.filter_cons_of_pos hpos
      rw [hflt]
      simp [substInst, hi0]

theorem dupFold_head (bid xid : Nat) :
    ∀ (ds : List SILInstruction) (g : SILFunction), (∀ e ∈ ds, e.iid ≠ xid) →
      (∃ b2, blk g bid = some b2 ∧ b2.insts.head?.map SILInstruction.iid = some xid) →
      ∃ b2, blk (ds.foldl (fun g d => eraseFromParent
          (replaceAllUsesWith g (SILValue.res d.iid) (SILValue.res xid)) d.iid) g) bid =
            some b2 ∧
        b2.insts.head?.map SILInstruction.iid = some xid := by
  intro ds
  induction ds with
  | nil => intro g _ hh; exact hh
  | cons d t ih =>
      intro g hne hh
      exact ih _ (fun x hx => hne x (List.mem_cons_of_mem d hx))
        (dupStep_head bid xid g d (hne d (List.mem_cons_self d t)) hh)

theorem moveBeforeBegin_head (f : SILFunction) (xid bid : Nat) (X : SILInstruction)
    (b : SILBasicBlock) (hX : findInst f xid = some X) (hb : blk f bid = some b) :
    ∃ b2, blk (moveBeforeBegin f xid bid) bid = some b2 ∧
      b2.insts.head?.map SILInstruction.iid = some xid := by
  unfold moveBeforeBegin
  rw [hX]
  have hbid : b.bid = bid := blk_bid hb
  refine ⟨{ b with insts := X :: b.insts.filter (fun i => i.iid != xid) }, ?_, ?_⟩
  · rw [blk_prepend, blk_erase, hb]
    simp only [Option.map_some']
    rw [if_pos (show SILBasicBlock.bid
      { b with insts := b.insts.filter (fun i => i.iid != xid) } = bid from hbid)]
  · show some X.iid = some xid
    rw [findInst_iid hX]

/-- C4 amended: when a sinkable candidate `X` from the first predecessor's
tail is matched by structurally identical sinkable duplicates in every
other predecessor, the scan loop moves the candidate to the front of the
successor block, rewrites every duplicate's (empty) use set to the moved
instruction and erases the duplicates, records one sunk event per erased
duplicate — predecessor count minus one, so with two predecessors the sunk
count is 1 — and restarts the outer scan at the first predecessor's new
terminator with the skip budget unchanged. -/
theorem C4_duplicate_sink_per_duplicate (f : SILFunction) (bid firstId : Nat)
    (X : SILInstruction) (rest : List ScanEntry) (fuel budget cnt : Nat) (ch : Bool)
    (d : SILInstruction) (ds : List SILInstruction) (b : SILBasicBlock)
    (htc : trySinkCandidate f bid firstId X = some (d :: ds))
    (hX : findInst f X.iid = some X)
    (hb : blk f bid = some b)
    (hne : ∀ e ∈ d :: ds, e.iid ≠ X.iid) :
    sinkLoop bid firstId (fuel + 1) f (ScanEntry.inst X :: rest) (budget + 1) ch cnt =
      sinkLoop bid firstId fuel (sinkDups f bid X.iid (d :: ds))
        (restartEntries (sinkDups f bid X.iid (d :: ds)) firstId) (budget + 1) true
        (cnt + (d :: ds).length) ∧
      (∃ b2, blk (sinkDups f bid X.iid (d :: ds)) bid = some b2 ∧
        b2.insts.head?.map SILInstruction.iid = some X.iid) ∧
      ∀ e ∈ d :: ds,
        findInst (sinkDups f bid X.iid (d :: ds)) e.iid = none ∧
          countUses (sinkDups f bid X.iid (d :: ds)) (SILValue.res e.iid) = 0 := by
  refine ⟨by simp only [sinkLoop, htc], ?_, ?_⟩
  · exact dupFold_head bid X.iid (d :: ds) _ hne
      (moveBeforeBegin_head f X.iid bid X b hX hb)
  · exact dupFold_erased X.iid (d :: ds) _ hne

/-- Witness for the amended C4 at the three-predecessor instance: the
candidate (identity 1) ends up at the front of the successor and both
duplicates (identities 2 and 3) are erased and use-free. -/
theorem C4_duplicate_sink_per_duplicate_witness :
    (∃ b2, blk (sinkDups exC4 3 1
        [{ iid := 2, kind := InstKind.generic 9 false, ops := [] },
         { iid := 3, kind := InstKind.generic 9 false, ops := [] }]) 3 = some b2 ∧
      b2.insts.head?.map SILInstruction.iid = some 1) :=
  (C4_duplicate_sink_per_duplicate exC4 3 0
    { iid := 1, kind := InstKind.generic 9 false, ops := [] } [] 10 5 0 false
    { iid := 2, kind := InstKind.generic 9 false, ops := [] }
    [{ iid := 3, kind := InstKind.generic 9 false, ops := [] }]
    { bid := 3, nargs := 0, insts := [], term := TermInst.ret SILValue.undef }
    (by decide) (by decide) (by decide) (by decide)).2.1

end SILModel

namespace SILModel

/-! Barriers and the backward scans (claim C6). -/

/-- Counterexample to C6 as stated: a use-free side-effecting instruction
(identity 2) is itself a sink barrier, yet because the duplicate check runs
before the barrier check, it is sunk when all predecessors hold an
identical copy — and after the restart the pure instruction (identity 1)
that precedes it in program order is sunk in the same sweep, even though
the barrier was never evaluated as a barrier (it had already been removed).
After the sweep both predecessors are empty and the successor holds both
instructions. -/
theorem C6_barrier_itself_sunk_counterexample :
    isSinkBarrier { iid := 2, kind := InstKind.generic 2 true, ops := [] } = true ∧
      (blk exC6 0).map SILBasicBlock.insts =
        some [{ iid := 1, kind := InstKind.generic 1 false, ops := [] },
              { iid := 2, kind := InstKind.generic 2 true, ops := [] }] ∧
      (blk (sinkCodeFromPredecessors exC6 2).1 0).map SILBasicBlock.insts = some [] ∧
      (blk (sinkCodeFromPredecessors exC6 2).1 2).map
          (fun b => b.insts.map SILInstruction.iid) = some [1, 2] := by
  decide

/-- C6 amended: a backward scan that encounters a side-effecting (barrier)
instruction which is not itself sunk as a matched duplicate ends at that
barrier: `findIdenticalInBlock` reports no match without inspecting
anything earlier in the block, and the outer scan loop of the
Duplicate-Code Sinker returns immediately with its accumulated state, so no
instruction preceding the surviving barrier is sunk in that sweep.  (A
use-free barrier duplicated in every predecessor can itself be sunk, which
removes it; only then can earlier instructions be reached.) -/
theorem C6_barrier_stops_scan :
    (∀ (f : SILFunction) (iden X : SILInstruction) (rest : List ScanEntry) (b : Nat),
        isSinkBarrier X = true →
        ¬(canSinkInstruction f X = true ∧ isIdenticalTo iden X = true) →
        findIdenticalInBlock f iden (ScanEntry.inst X :: rest) (b + 1) = none) ∧
      (∀ (bid firstId fuel : Nat) (f : SILFunction) (X : SILInstruction)
          (rest : List ScanEntry) (budget cnt : Nat) (ch : Bool),
        isSinkBarrier X = true →
        trySinkCandidate f bid firstId X = none →
        sinkLoop bid firstId (fuel + 1) f (ScanEntry.inst X :: rest) (budget + 1) ch cnt =
          (f, ch, cnt)) := by
  constructor
  · intro f iden X rest b hbar hnot
    have hand : (canSinkInstruction f X && isIdenticalTo iden X) = false := by
      cases hc : canSinkInstruction f X with
      | false => rfl
      | true =>
          cases hi : isIdenticalTo iden X with
          | false => rfl
          | true => exact absurd ⟨hc, hi⟩ hnot
    simp only [findIdenticalInBlock, hand, Bool.false_eq_true, if_false, hbar, if_true]
  · intro bid firstId fuel f X rest budget cnt ch hbar htc
    simp only [sinkLoop, htc, hbar, if_true]

/-- Witness for the amended C6: a barrier with no duplicate match stops both
the inner duplicate search and the outer scan loop. -/
theorem C6_barrier_stops_scan_witness :
    findIdenticalInBlock exC6 { iid := 1, kind := InstKind.generic 1 false, ops := [] }
        [ScanEntry.inst { iid := 2, kind := InstKind.generic 2 true, ops := [] }] 6 =
      none ∧
    sinkLoop 99 0 6 exC6
        [ScanEntry.inst { iid := 2, kind := InstKind.generic 2 true, ops := [] }] 4
        false 0 = (exC6, false, 0) :=
  ⟨C6_barrier_stops_scan.1 exC6
      { iid := 1, kind := InstKind.generic 1 false, ops := [] }
      { iid := 2, kind := InstKind.generic 2 true, ops := [] } [] 5
      (by decide) (by decide),
   C6_barrier_stops_scan.2 99 0 5 exC6
      { iid := 2, kind := InstKind.generic 2 true, ops := [] } [] 3 0 false
      (by decide) (by decide)⟩

/-! Block-Argument Sinker postconditions (claim C1).  First, general facts
about `recursivelyDeleteTriviallyDead`. -/

theorem head?_eq_some_cons {α : Type} {l : List α} {a : α} (h : l.head? = some a) :
    ∃ t, l = a :: t := by
  cases l with
  | nil => exact absurd h (by simp)
  | cons x t =>
      rw [List.head?_cons] at h
      exact ⟨t, by rw [Option.some_inj.mp h]⟩

theorem substInst_id {v : SILValue} (w : SILValue) {i : SILInstruction}
    (h : v ∉ i.ops) : substInst v w i = i := by
  unfold substInst
  rw [map_substV_id w h]

theorem totalInsts_pos {g : SILFunction} {m : Nat} {j : SILInstruction}
    (h : findInst g m = some j) : 0 < totalInsts g := by
  have hj : j ∈ (g.blocks.map SILBasicBlock.insts).flatten := List.mem_of_find?_eq_some h
  rw [List.mem_flatten] at hj
  rcases hj with ⟨l, hl, hjl⟩
  rcases List.mem_map.mp hl with ⟨bb, hbb, hle⟩
  subst hle
  have h1 : 0 < bb.insts.length := List.length_pos_of_mem hjl
  have h2 : bb.insts.length ∈ g.blocks.map (fun b => b.insts.length) :=
    List.mem_map_of_mem _ hbb
  have h3 : bb.insts.length ≤ (g.blocks.map (fun b => b.insts.length)).sum :=
    List.single_le_sum (fun x _ => Nat.zero_le x) _ h2
  unfold totalInsts
  omega

theorem recDel_noop (fuel : Nat) (g : SILFunction) (k : Nat)
    (h : countUses g (SILValue.res k) ≠ 0) :
    recursivelyDeleteTriviallyDead fuel g k = g := by
  cases fuel with
  | zero => rfl
  | succ n =>
      unfold recursivelyDeleteTriviallyDead
      cases hf : findInst g k with
      | none => rfl
      | some i =>
          have hc : (countUses g (SILValue.res k) == 0 && !mayHaveSideEffects i.kind) =
              false := by
            have hz : (countUses g (SILValue.res k) == 0) = false := by simpa using h
            simp [hz]
          simp only [hc, Bool.false_eq_true, if_false]

theorem recDelFold_count_zero (n : Nat)
    (ihn : ∀ (g : SILFunction) (m : Nat) (v : SILValue), countUses g v = 0 →
      countUses (recursivelyDeleteTriviallyDead n g m) v = 0) :
    ∀ (l : List SILValue) (g : SILFunction) (v : SILValue), countUses g v = 0 →
      countUses (l.foldl (fun g v =>
        match v with
        | SILValue.res m => recursivelyDeleteTriviallyDead n g m
        | _ => g) g) v = 0 := by
  intro l
  induction l with
  | nil => exact fun g v h => h
  | cons w t ih =>
      intro g v h
      cases w with
      | undef => exact ih g v h
      | arg a b => exact ih g v h
      | res k => exact ih _ v (ihn g k v h)

theorem recDel_count_zero : ∀ (fuel : Nat) (g : SILFunction) (m : Nat) (v : SILValue),
    countUses g v = 0 → countUses (recursivelyDeleteTriviallyDead fuel g m) v = 0 := by
  intro fuel
  induction fuel with
  | zero => exact fun g m v h => h
  | succ n ih =>
      intro g m v h
      unfold recursivelyDeleteTriviallyDead
      cases hf : findInst g m with
      | none => exact h
      | some i =>
          cases hc : (countUses g (SILValue.res m) == 0 && !mayHaveSideEffects i.kind) with
          | false => simp only [hc, Bool.false_eq_true, if_false]; exact h
          | true =>
              simp only [hc, if_true]
              exact recDelFold_count_zero n ih i.ops (eraseFromParent g m) v
                (countUses_erase_zero g m h)

theorem recDelFold_findInst_none (n : Nat)
    (ihn : ∀ (g : SILFunction) (m j : Nat), findInst g j = none →
      findInst (recursivelyDeleteTriviallyDead n g m) j = none) :
    ∀ (l : List SILValue) (g : SILFunction) (j : Nat), findInst g j = none →
      findInst (l.foldl (fun g v =>
        match v with
        | SILValue.res m => recursivelyDeleteTriviallyDead n g m
        | _ => g) g) j = none := by
  intro l
  induction l with
  | nil => exact fun g j h => h
  | cons w t ih =>
      intro g j h
      cases w with
      | undef => exact ih g j h
      | arg a b => exact ih g j h
      | res k => exact ih _ j (ihn g k j h)

theorem recDel_findInst_none : ∀ (fuel : Nat) (g : SILFunction) (m j : Nat),
    findInst g j = none → findInst (recursivelyDeleteTriviallyDead fuel g m) j = none := by
  intro fuel
  induction fuel with
  | zero => exact fun g m j h => h
  | succ n ih =>
      intro g m j h
      unfold recursivelyDeleteTriviallyDead
      cases hf : findInst g m with
      | none => exact h
      | some i =>
          cases hc : (countUses g (SILValue.res m) == 0 && !mayHaveSideEffects i.kind) with
          | false => simp only [hc, Bool.false_eq_true, if_false]; exact h
          | true =>
              simp only [hc, if_true]
              exact recDelFold_findInst_none n ih i.ops (eraseFromParent g m) j
                (findInst_erase_of_none g m h)

theorem recDelFold_noop (n : Nat) :
    ∀ (l : List SILValue) (g : SILFunction),
      (∀ k, SILValue.res k ∈ l → countUses g (SILValue.res k) ≠ 0) →
      l.foldl (fun g v =>
        match v with
        | SILValue.res m => recursivelyDeleteTriviallyDead n g m
        | _ => g) g = g := by
  intro l
  induction l with
  | nil => exact fun g _ => rfl
  | cons w t ih =>
      intro g hl
      cases w with
      | undef => exact ih g (fun k hk => hl k (List.mem_cons_of_mem _ hk))
      | arg a b => exact ih g (fun k hk => hl k (List.mem_cons_of_mem _ hk))
      | res k =>
          show List.foldl (fun g v =>
            match v with
            | SILValue.res m => recursivelyDeleteTriviallyDead n g m
            | _ => g) (recursivelyDeleteTriviallyDead n g k) t = g
          rw [recDel_noop n g k (hl k (List.mem_cons_self _ _))]
          exact ih g (fun k2 hk2 => hl k2 (List.mem_cons_of_mem _ hk2))

theorem recDel_eq_erase (fuel : Nat) (g : SILFunction) (m : Nat) (j : SILInstruction)
    (hfind : findInst g m = some j)
    (hzero : countUses g (SILValue.res m) = 0)
    (hpure : mayHaveSideEffects j.kind = false)
    (hops : ∀ k, SILValue.res k ∈ j.ops →
      countUses (eraseFromParent g m) (SILValue.res k) ≠ 0) :
    recursivelyDeleteTriviallyDead (fuel + 1) g m = eraseFromParent g m := by
  unfold recursivelyDeleteTriviallyDead
  simp only [hfind]
  have hc : (countUses g (SILValue.res m) == 0 && !mayHaveSideEffects j.kind) = true := by
    simp [hzero, hpure]
  simp only [hc, if_true]
  exact recDelFold_noop fuel j.ops (eraseFromParent g m) hops

/-! Block-shape tracking through the primitive mutations. -/

theorem blk_some_rauw {f : SILFunction} {c : Nat} {bb : SILBasicBlock}
    (v w : SILValue) (h : blk f c = some bb) :
    ∃ bb2, blk (replaceAllUsesWith f v w) c = some bb2 ∧ bb2.nargs = bb.nargs ∧
      bb2.insts = bb.insts.map (substInst v w) ∧ bb2.term = substTerm v w bb.term := by
  refine ⟨{ bb with insts := bb.insts.map (substInst v w)
                    term := substTerm v w bb.term }, ?_, rfl, rfl, rfl⟩
  rw [blk_rauw, h]
  rfl

theorem blk_some_erase {f : SILFunction} {c : Nat} {bb : SILBasicBlock}
    (iid : Nat) (h : blk f c = some bb) :
    ∃ bb2, blk (eraseFromParent f iid) c = some bb2 ∧ bb2.nargs = bb.nargs ∧
      bb2.insts = bb.insts.filter (fun i => i.iid != iid) ∧ bb2.term = bb.term := by
  refine ⟨{ bb with insts := bb.insts.filter (fun i => i.iid != iid) }, ?_, rfl, rfl, rfl⟩
  rw [blk_erase, h]
  rfl

theorem blk_some_prepend_self {f : SILFunction} {c : Nat} {bb : SILBasicBlock}
    (i : SILInstruction) (h : blk f c = some bb) :
    ∃ bb2, blk (prependToBlock f c i) c = some bb2 ∧ bb2.nargs = bb.nargs ∧
      bb2.insts = i :: bb.insts ∧ bb2.term = bb.term := by
  refine ⟨{ bb with insts := i :: bb.insts }, ?_, rfl, rfl, rfl⟩
  rw [blk_prepend, h]
  simp only [Option.map_some']
  rw [if_pos (blk_bid h)]

theorem blk_some_prepend_term {f : SILFunction} {d c : Nat} {bb : SILBasicBlock}
    (i : SILInstruction) (h : blk f d = some bb) :
    ∃ bb2, blk (prependToBlock f c i) d = some bb2 ∧ bb2.nargs = bb.nargs ∧
      bb2.term = bb.term := by
  by_cases hbc : bb.bid = c
  · refine ⟨{ bb with insts := i :: bb.insts }, ?_, rfl, rfl⟩
    rw [blk_prepend, h]
    simp [hbc]
  · refine ⟨bb, ?_, rfl, rfl⟩
    rw [blk_prepend, h]
    simp [hbc]

/-! The clone-cleanup step: reduction and preservation lemmas. -/

theorem cleanupStep_self (fsi : SILInstruction) (g : SILFunction) :
    sinkArgumentCleanupStep fsi g (SILValue.res fsi.iid) = g := by
  unfold sinkArgumentCleanupStep
  rw [if_pos rfl]

theorem cleanupStep_eq (fsi : SILInstruction) (g : SILFunction) (m : Nat) (bid : Nat)
    (hmne : m ≠ fsi.iid) (hcops : SILValue.res m ∉ fsi.ops)
    (hfindm : findInst g m = some { iid := m, kind := fsi.kind, ops := fsi.ops })
    (hpure : mayHaveSideEffects fsi.kind = false)
    (hhead : ∃ bb, blk g bid = some bb ∧ bb.insts.head? = some fsi) :
    sinkArgumentCleanupStep fsi g (SILValue.res m) =
      eraseFromParent (replaceAllUsesWith g (SILValue.res m) SILValue.undef) m := by
  have hne : SILValue.res m ≠ SILValue.res fsi.iid := res_ne_of_iid_ne hmne
  have hstep : sinkArgumentCleanupStep fsi g (SILValue.res m) =
      recursivelyDeleteTriviallyDead
        (totalInsts (replaceAllUsesWith g (SILValue.res m) SILValue.undef))
        (replaceAllUsesWith g (SILValue.res m) SILValue.undef) m := by
    simp only [sinkArgumentCleanupStep, if_neg hne]
  rw [hstep]
  have hcops2 : SILValue.res m ∉
      ({ iid := m, kind := fsi.kind, ops := fsi.ops } : SILInstruction).ops := hcops
  have hfind1 : findInst (replaceAllUsesWith g (SILValue.res m) SILValue.undef) m =
      some { iid := m, kind := fsi.kind, ops := fsi.ops } := by
    rw [findInst_rauw, hfindm, Option.map_some', substInst_id SILValue.undef hcops2]
  have hzero1 : countUses (replaceAllUsesWith g (SILValue.res m) SILValue.undef)
      (SILValue.res m) = 0 :=
    countUses_rauw_self g (fun he => SILValue.noConfusion he)
  rcases hhead with ⟨bb, hbb, hh⟩
  obtain ⟨tl, htl⟩ := head?_eq_some_cons hh
  obtain ⟨b1, hb1, _, hb1i, _⟩ := blk_some_rauw (SILValue.res m) SILValue.undef hbb
  obtain ⟨b2, hb2, _, hb2i, _⟩ := blk_some_erase m hb1
  have hfsimem : fsi ∈ b2.insts := by
    rw [hb2i, hb1i, htl, List.map_cons, substInst_id SILValue.undef hcops,
      List.filter_cons_of_pos (by simpa using hmne.symm)]
    exact List.mem_cons_self _ _
  have hops : ∀ k, SILValue.res k ∈ fsi.ops →
      countUses (eraseFromParent (replaceAllUsesWith g (SILValue.res m) SILValue.undef) m)
        (SILValue.res k) ≠ 0 := by
    intro k hk
    have := countUses_pos hb2 hfsimem hk
    omega
  cases htot : totalInsts (replaceAllUsesWith g (SILValue.res m) SILValue.undef) with
  | zero =>
      have hpos := totalInsts_pos hfind1
      rw [htot] at hpos
      exact absurd hpos (Nat.lt_irrefl 0)
  | succ n =>
      exact recDel_eq_erase n _ m _ hfind1 hzero1 hpure hops

theorem cleanupStep_pres_none (fsi : SILInstruction) (g : SILFunction) (s : SILValue)
    {m : Nat} (h : findInst g m = none) :
    findInst (sinkArgumentCleanupStep fsi g s) m = none := by
  unfold sinkArgumentCleanupStep
  by_cases hs : s = SILValue.res fsi.iid
  · rw [if_pos hs]; exact h
  · rw [if_neg hs]
    cases s with
    | undef =>
        show findInst (replaceAllUsesWith g SILValue.undef SILValue.undef) m = none
        rw [findInst_rauw, h]
        rfl
    | arg a i =>
        show findInst (replaceAllUsesWith g (SILValue.arg a i) SILValue.undef) m = none
        rw [findInst_rauw, h]
        rfl
    | res k =>
        show findInst (recursivelyDeleteTriviallyDead
          (totalInsts (replaceAllUsesWith g (SILValue.res k) SILValue.undef))
          (replaceAllUsesWith g (SILValue.res k) SILValue.undef) k) m = none
        refine recDel_findInst_none _ _ _ _ ?_
        rw [findInst_rauw, h]
        rfl

theorem cleanupStep_pres_zero (fsi : SILInstruction) (g : SILFunction) (s : SILValue)
    {m : Nat} (h : countUses g (SILValue.res m) = 0) :
    countUses (sinkArgumentCleanupStep fsi g s) (SILValue.res m) = 0 := by
  unfold sinkArgumentCleanupStep
  by_cases hs : s = SILValue.res fsi.iid
  · rw [if_pos hs]; exact h
  · rw [if_neg hs]
    cases s with
    | undef =>
        show countUses (replaceAllUsesWith g SILValue.undef SILValue.undef)
          (SILValue.res m) = 0
        exact countUses_rauw_zero g _ h (fun he => SILValue.noConfusion he)
    | arg a i =>
        show countUses (replaceAllUsesWith g (SILValue.arg a i) SILValue.undef)
          (SILValue.res m) = 0
        exact countUses_rauw_zero g _ h (fun he => SILValue.noConfusion he)
    | res k =>
        show countUses (recursivelyDeleteTriviallyDead
          (totalInsts (replaceAllUsesWith g (SILValue.res k) SILValue.undef))
          (replaceAllUsesWith g (SILValue.res k) SILValue.undef) k) (SILValue.res m) = 0
        refine recDel_count_zero _ _ _ _ ?_
        exact countUses_rauw_zero g _ h (fun he => SILValue.noConfusion he)

theorem cleanupFold_pres (fsi : SILInstruction) :
    ∀ (cl : List SILValue) (g : SILFunction) (m : Nat),
      findInst g m = none → countUses g (SILValue.res m) = 0 →
      findInst (cl.foldl (sinkArgumentCleanupStep fsi) g) m = none ∧
        countUses (cl.foldl (sinkArgumentCleanupStep fsi) g) (SILValue.res m) = 0 := by
  intro cl
  induction cl with
  | nil => exact fun g m h1 h2 => ⟨h1, h2⟩
  | cons s t ih =>
      intro g m h1 h2
      exact ih _ m (cleanupStep_pres_none fsi g s h1) (cleanupStep_pres_zero fsi g s h2)

/-- Preservation lemmas for one cleanup step on the function state used by
the clone-cleanup fold: one clone is undef'ed and erased, the sunk
instruction stays at the head of `bid`, the block argument stays use-free,
the first predecessor terminator slot stays undef, and the remaining clones
stay present. -/
theorem cleanupFold_main (fsi : SILInstruction) (bid argNum p0id N : Nat)
    (hpure : mayHaveSideEffects fsi.kind = false) :
    ∀ (cl : List SILValue) (g : SILFunction),
      (∀ c ∈ cl, ∃ m, c = SILValue.res m ∧ m ≠ fsi.iid ∧ SILValue.res m ∉ fsi.ops ∧
          findInst g m = some { iid := m, kind := fsi.kind, ops := fsi.ops }) →
      cl.Nodup →
      (∃ bb, blk g bid = some bb ∧ bb.nargs = N ∧ bb.insts.head? = some fsi) →
      countUses g (SILValue.arg bid argNum) = 0 →
      (∃ pb, blk g p0id = some pb ∧ getTermOperand pb.term argNum = SILValue.undef) →
      (∃ bb, blk (cl.foldl (sinkArgumentCleanupStep fsi) g) bid = some bb ∧
          bb.nargs = N ∧ bb.insts.head? = some fsi) ∧
      countUses (cl.foldl (sinkArgumentCleanupStep fsi) g) (SILValue.arg bid argNum) = 0 ∧
      (∃ pb, blk (cl.foldl (sinkArgumentCleanupStep fsi) g) p0id = some pb ∧
          getTermOperand pb.term argNum = SILValue.undef) ∧
      (∀ c ∈ cl, ∃ m, c = SILValue.res m ∧
          findInst (cl.foldl (sinkArgumentCleanupStep fsi) g) m = none ∧
          countUses (cl.foldl (sinkArgumentCleanupStep fsi) g) (SILValue.res m) = 0) := by
  intro cl
  induction cl with
  | nil =>
      exact fun g _ _ hh ha hp =>
        ⟨hh, ha, hp, fun c hc => absurd hc (List.not_mem_nil c)⟩
  | cons s t ih =>
      intro g hcl hnd hh ha hp
      obtain ⟨m, hs, hmne, hmops, hmfind⟩ := hcl s (List.mem_cons_self s t)
      subst hs
      have hnm : SILValue.res m ∉ t := (List.nodup_cons.mp hnd).1
      have hnd2 : t.Nodup := (List.nodup_cons.mp hnd).2
      have hstep : sinkArgumentCleanupStep fsi g (SILValue.res m) =
          eraseFromParent (replaceAllUsesWith g (SILValue.res m) SILValue.undef) m :=
        cleanupStep_eq fsi g m bid hmne hmops hmfind hpure
          (by rcases hh with ⟨bb, hbb, _, hhd⟩; exact ⟨bb, hbb, hhd⟩)
      simp only [List.foldl_cons, hstep]
      have hcl2 : ∀ c ∈ t, ∃ m2, c = SILValue.res m2 ∧ m2 ≠ fsi.iid ∧
          SILValue.res m2 ∉ fsi.ops ∧
          findInst (eraseFromParent (replaceAllUsesWith g (SILValue.res m) SILValue.undef) m)
            m2 = some { iid := m2, kind := fsi.kind, ops := fsi.ops } := by
        intro c hc
        obtain ⟨m2, hc2, h1, h2, h3⟩ := hcl c (List.mem_cons_of_mem _ hc)
        subst hc2
        refine ⟨m2, rfl, h1, h2, ?_⟩
        have hm2m : m2 ≠ m := by
          intro he
          exact hnm (by rw [← he]; exact hc)
        have hjm : SILValue.res m ∉
            ({ iid := m2, kind := fsi.kind, ops := fsi.ops } : SILInstruction).ops := hmops
        rw [findInst_erase_ne _ hm2m, findInst_rauw, h3, Option.map_some',
          substInst_id SILValue.undef hjm]
      have hh2 : ∃ bb, blk (eraseFromParent
          (replaceAllUsesWith g (SILValue.res m) SILValue.undef) m) bid = some bb ∧
          bb.nargs = N ∧ bb.insts.head? = some fsi := by
        rcases hh with ⟨bb, hbb, hn, hhd⟩
        obtain ⟨tl, htl⟩ := head?_eq_some_cons hhd
        obtain ⟨b1, hb1, hb1n, hb1i, _⟩ := blk_some_rauw (SILValue.res m) SILValue.undef hbb
        obtain ⟨b2, hb2, hb2n, hb2i, _⟩ := blk_some_erase m hb1
        refine ⟨b2, hb2, by rw [hb2n, hb1n, hn], ?_⟩
        rw [hb2i, hb1i, htl, List.map_cons, substInst_id SILValue.undef hmops,
          List.filter_cons_of_pos (by simpa using hmne.symm), List.head?_cons]
      have ha2 : countUses (eraseFromParent
          (replaceAllUsesWith g (SILValue.res m) SILValue.undef) m)
          (SILValue.arg bid argNum) = 0 :=
        countUses_erase_zero _ m
          (countUses_rauw_zero g _ ha (fun he => SILValue.noConfusion he))
      have hp2 : ∃ pb, blk (eraseFromParent
          (replaceAllUsesWith g (SILValue.res m) SILValue.undef) m) p0id = some pb ∧
          getTermOperand pb.term argNum = SILValue.undef := by
        rcases hp with ⟨pb, hpb, hslot⟩
        obtain ⟨p1, hp1, _, _, hp1t⟩ := blk_some_rauw (SILValue.res m) SILValue.undef hpb
        obtain ⟨p2, hp2e, _, _, hp2t⟩ := blk_some_erase m hp1
        refine ⟨p2, hp2e, ?_⟩
        rw [hp2t, hp1t,
          getTermOperand_substTerm SILValue.undef pb.term argNum
            (fun he => SILValue.noConfusion he),
          hslot]
        exact substV_of_ne SILValue.undef (fun he => SILValue.noConfusion he)
      obtain ⟨HH, HA, HP, HC⟩ := ih
        (eraseFromParent (replaceAllUsesWith g (SILValue.res m) SILValue.undef) m)
        hcl2 hnd2 hh2 ha2 hp2
      refine ⟨HH, HA, HP, ?_⟩
      intro c hc
      rcases List.mem_cons.mp hc with hc1 | hc2
      · subst hc1
        have h1 : findInst (eraseFromParent
            (replaceAllUsesWith g (SILValue.res m) SILValue.undef) m) m = none :=
          findInst_erase_self _ m
        have h2 : countUses (eraseFromParent
            (replaceAllUsesWith g (SILValue.res m) SILValue.undef) m)
            (SILValue.res m) = 0 :=
          countUses_erase_zero _ m (countUses_rauw_self g (fun he => SILValue.noConfusion he))
        have hpr := cleanupFold_pres fsi t
          (eraseFromParent (replaceAllUsesWith g (SILValue.res m) SILValue.undef) m)
          m h1 h2
        exact ⟨m, rfl, hpr.1, hpr.2⟩
      · exact HC c hc2

/-- Postconditions of the mutation sequence of a successful `sinkArgument`:
the first copy lands at the head of `bid` with the block's argument count
unchanged, the block argument becomes use-free (its slots now hold the
moved instruction's result), the first predecessor's terminator slot holds
undef, and every clone is deleted with no remaining uses. -/
theorem sinkArgumentApply_post (f : SILFunction) (bid argNum : Nat) (fsi : SILInstruction)
    (clones0 : List SILValue) (b : SILBasicBlock) (p0id : Nat) (pb0 : SILBasicBlock)
    (hb : blk f bid = some b)
    (hp0 : blk f p0id = some pb0)
    (hop : getTermOperand pb0.term argNum = SILValue.res fsi.iid)
    (hfind : findInst f fsi.iid = some fsi)
    (hpure : mayHaveSideEffects fsi.kind = false)
    (hself : SILValue.res fsi.iid ∉ fsi.ops)
    (hargf : SILValue.arg bid argNum ∉ fsi.ops)
    (hcl : ∀ c ∈ clones0, ∃ m, c = SILValue.res m ∧ m ≠ fsi.iid ∧
        SILValue.res m ∉ fsi.ops ∧
        findInst f m = some { iid := m, kind := fsi.kind, ops := fsi.ops })
    (hclnd : clones0.Nodup) :
    (∃ bb, blk (sinkArgumentApply f bid argNum fsi (SILValue.res fsi.iid :: clones0)) bid =
        some bb ∧ bb.nargs = b.nargs ∧ bb.insts.head? = some fsi) ∧
    countUses (sinkArgumentApply f bid argNum fsi (SILValue.res fsi.iid :: clones0))
      (SILValue.arg bid argNum) = 0 ∧
    (∃ pb, blk (sinkArgumentApply f bid argNum fsi (SILValue.res fsi.iid :: clones0)) p0id =
        some pb ∧ getTermOperand pb.term argNum = SILValue.undef) ∧
    (∀ c ∈ clones0, ∃ m, c = SILValue.res m ∧
        findInst (sinkArgumentApply f bid argNum fsi (SILValue.res fsi.iid :: clones0)) m =
          none ∧
        countUses (sinkArgumentApply f bid argNum fsi (SILValue.res fsi.iid :: clones0))
          (SILValue.res m) = 0) := by
  have hf1find : findInst (replaceAllUsesWith f (SILValue.res fsi.iid) SILValue.undef)
      fsi.iid = some fsi := by
    rw [findInst_rauw, hfind, Option.map_some', substInst_id SILValue.undef hself]
  have hf2mv : moveBeforeBegin (replaceAllUsesWith f (SILValue.res fsi.iid) SILValue.undef)
      fsi.iid bid =
      prependToBlock
        (eraseFromParent (replaceAllUsesWith f (SILValue.res fsi.iid) SILValue.undef)
          fsi.iid) bid fsi := by
    unfold moveBeforeBegin
    simp only [hf1find]
  have happ : sinkArgumentApply f bid argNum fsi (SILValue.res fsi.iid :: clones0) =
      clones0.foldl (sinkArgumentCleanupStep fsi)
        (replaceAllUsesWith
          (prependToBlock
            (eraseFromParent (replaceAllUsesWith f (SILValue.res fsi.iid) SILValue.undef)
              fsi.iid) bid fsi)
          (SILValue.arg bid argNum) (SILValue.res fsi.iid)) := by
    simp only [sinkArgumentApply, List.foldl_cons, cleanupStep_self]
    rw [hf2mv]
  rw [happ]
  -- invariant at the state before the clone fold
  obtain ⟨b1, hb1, hb1n, hb1i, _⟩ := blk_some_rauw (SILValue.res fsi.iid) SILValue.undef hb
  obtain ⟨b1e, hb1e, hb1en, hb1ei, _⟩ := blk_some_erase fsi.iid hb1
  obtain ⟨b2, hb2, hb2n, hb2i, _⟩ := blk_some_prepend_self fsi hb1e
  obtain ⟨b3, hb3, hb3n, hb3i, _⟩ :=
    blk_some_rauw (SILValue.arg bid argNum) (SILValue.res fsi.iid) hb2
  have hhead3 : b3.insts.head? = some fsi := by
    rw [hb3i, hb2i, List.map_cons, substInst_id (SILValue.res fsi.iid) hargf,
      List.head?_cons]
  have hn3 : b3.nargs = b.nargs := by rw [hb3n, hb2n, hb1en, hb1n]
  have hargcnt : countUses
      (replaceAllUsesWith
        (prependToBlock
          (eraseFromParent (replaceAllUsesWith f (SILValue.res fsi.iid) SILValue.undef)
            fsi.iid) bid fsi)
        (SILValue.arg bid argNum) (SILValue.res fsi.iid))
      (SILValue.arg bid argNum) = 0 :=
    countUses_rauw_self _ (fun he => SILValue.noConfusion he)
  obtain ⟨p1, hp1, _, _, hp1t⟩ := blk_some_rauw (SILValue.res fsi.iid) SILValue.undef hp0
  have hslot1 : getTermOperand p1.term argNum = SILValue.undef := by
    rw [hp1t,
      getTermOperand_substTerm SILValue.undef pb0.term argNum
        (fun he => SILValue.noConfusion he),
      hop, substV_self]
  obtain ⟨p1e, hp1e, _, _, hp1et⟩ := blk_some_erase fsi.iid hp1
  obtain ⟨p2, hp2, _, hp2t⟩ := blk_some_prepend_term fsi hp1e
  obtain ⟨p3, hp3, _, _, hp3t⟩ :=
    blk_some_rauw (SILValue.arg bid argNum) (SILValue.res fsi.iid) hp2
  have hslot3 : getTermOperand p3.term argNum = SILValue.undef := by
    rw [hp3t, hp2t, hp1et,
      getTermOperand_substTerm (SILValue.res fsi.iid) p1.term argNum
        (fun he => SILValue.noConfusion he),
      hslot1]
    exact substV_of_ne (SILValue.res fsi.iid) (fun he => SILValue.noConfusion he)
  have hcl3 : ∀ c ∈ clones0, ∃ m, c = SILValue.res m ∧ m ≠ fsi.iid ∧
      SILValue.res m ∉ fsi.ops ∧
      findInst
        (replaceAllUsesWith
          (prependToBlock
            (eraseFromParent (replaceAllUsesWith f (SILValue.res fsi.iid) SILValue.undef)
              fsi.iid) bid fsi)
          (SILValue.arg bid argNum) (SILValue.res fsi.iid)) m =
        some { iid := m, kind := fsi.kind, ops := fsi.ops } := by
    intro c hc
    obtain ⟨m, hceq, h1, h2, h3⟩ := hcl c hc
    subst hceq
    refine ⟨m, rfl, h1, h2, ?_⟩
    have hjm1 : SILValue.res fsi.iid ∉
        ({ iid := m, kind := fsi.kind, ops := fsi.ops } : SILInstruction).ops := hself
    have hjm2 : SILValue.arg bid argNum ∉
        ({ iid := m, kind := fsi.kind, ops := fsi.ops } : SILInstruction).ops := hargf
    have s1 : findInst (replaceAllUsesWith f (SILValue.res fsi.iid) SILValue.undef) m =
        some { iid := m, kind := fsi.kind, ops := fsi.ops } := by
      rw [findInst_rauw, h3, Option.map_some', substInst_id SILValue.undef hjm1]
    have s2 : findInst
        (eraseFromParent (replaceAllUsesWith f (SILValue.res fsi.iid) SILValue.undef)
          fsi.iid) m = some { iid := m, kind := fsi.kind, ops := fsi.ops } := by
      rw [findInst_erase_ne _ h1]
      exact s1
    have s3 : findInst
        (prependToBlock
          (eraseFromParent (replaceAllUsesWith f (SILValue.res fsi.iid) SILValue.undef)
            fsi.iid) bid fsi) m = some { iid := m, kind := fsi.kind, ops := fsi.ops } := by
      rw [findInst_prepend_ne _ bid (fun he => h1 he.symm)]
      exact s2
    rw [findInst_rauw, s3, Option.map_some', substInst_id (SILValue.res fsi.iid) hjm2]
  exact cleanupFold_main fsi bid argNum p0id b.nargs hpure clones0 _
    hcl3 hclnd ⟨b3, hb3, hn3, hhead3⟩ hargcnt ⟨p3, hp3, hslot3⟩

/-- Counterexample to C1 as stated: on `exC1` the sink succeeds, yet block
2 still has one block argument (the parameter list is not shrunk), and
both predecessor terminators still carry one operand at the argument
position — the slot is rewritten to undef, not removed. -/
theorem C1_argument_retained_counterexample :
    (sinkArgument exC1 2 0).2 = true ∧
      (blk (sinkArgument exC1 2 0).1 2).map SILBasicBlock.nargs = some 1 ∧
      (blk (sinkArgument exC1 2 0).1 0).map (fun p => termOperands p.term) =
        some [SILValue.undef] ∧
      (blk (sinkArgument exC1 2 0).1 1).map (fun p => termOperands p.term) =
        some [SILValue.undef] := by
  decide

/-- C1 (amended).  Block-Argument Sinker postcondition: when every
predecessor supplies at position `argNum` the result of the same
structurally identical, single-use, side-effect-free instruction,
`sinkArgument` succeeds and (1) the first predecessor's copy now sits at
the head of the successor block, whose argument count is unchanged — the
argument itself is NOT removed from the parameter list; (2) the block
argument is left with no uses (every original use now resolves to the sunk
instruction's result); (3) the first predecessor's terminator still has an
operand slot at that position, now holding undef rather than being
removed; and (4) every other predecessor's clone is deleted and use-free. -/
theorem C1_block_argument_sinking (f : SILFunction) (bid argNum : Nat)
    (p0 : SILBasicBlock) (rest : List SILBasicBlock) (fsi : SILInstruction)
    (clones0 : List SILValue) (b : SILBasicBlock)
    (hpreds : preds f bid = p0 :: rest)
    (hb : blk f bid = some b)
    (hp0 : blk f p0.bid = some p0)
    (hop : getTermOperand p0.term argNum = SILValue.res fsi.iid)
    (hfind : findInst f fsi.iid = some fsi)
    (hone : countUses f (SILValue.res fsi.iid) = 1)
    (hpure : mayHaveSideEffects fsi.kind = false)
    (hclones : collectClones f argNum fsi rest = some clones0)
    (hself : SILValue.res fsi.iid ∉ fsi.ops)
    (hargf : SILValue.arg bid argNum ∉ fsi.ops)
    (hcl : ∀ c ∈ clones0, ∃ m, c = SILValue.res m ∧ m ≠ fsi.iid ∧
        SILValue.res m ∉ fsi.ops ∧
        findInst f m = some { iid := m, kind := fsi.kind, ops := fsi.ops })
    (hclnd : clones0.Nodup) :
    (sinkArgument f bid argNum).2 = true ∧
    (∃ bb, blk (sinkArgument f bid argNum).1 bid = some bb ∧ bb.nargs = b.nargs ∧
        bb.insts.head? = some fsi) ∧
    countUses (sinkArgument f bid argNum).1 (SILValue.arg bid argNum) = 0 ∧
    (∃ pb, blk (sinkArgument f bid argNum).1 p0.bid = some pb ∧
        getTermOperand pb.term argNum = SILValue.undef) ∧
    ∀ c ∈ clones0, ∃ m, c = SILValue.res m ∧
        findInst (sinkArgument f bid argNum).1 m = none ∧
        countUses (sinkArgument f bid argNum).1 (SILValue.res m) = 0 := by
  have hr : sinkArgument f bid argNum =
      (sinkArgumentApply f bid argNum fsi (SILValue.res fsi.iid :: clones0), true) := by
    unfold sinkArgument
    simp only [hpreds]
    rw [hop]
    simp only [defInst, hfind]
    rw [hone]
    simp only [bne_self_eq_false, Bool.false_eq_true, if_false, hpure, hclones]
  rw [hr]
  obtain ⟨H1, H2, H3, H4⟩ := sinkArgumentApply_post f bid argNum fsi clones0 b p0.bid p0
    hb hp0 hop hfind hpure hself hargf hcl hclnd
  exact ⟨rfl, H1, H2, H3, H4⟩

/-- Witness for the amended C1: on `exC1` the sink succeeds and the block
argument of block 2 is left with zero uses. -/
theorem C1_block_argument_sinking_witness :
    (sinkArgument exC1 2 0).2 = true ∧
      countUses (sinkArgument exC1 2 0).1 (SILValue.arg 2 0) = 0 := by
  have h := C1_block_argument_sinking exC1 2 0
    { bid := 0, nargs := 0,
      insts := [{ iid := 5, kind := InstKind.generic 7 false, ops := [] }],
      term := TermInst.br 2 [SILValue.res 5] }
    [{ bid := 1, nargs := 0,
       insts := [{ iid := 6, kind := InstKind.generic 7 false, ops := [] }],
       term := TermInst.br 2 [SILValue.res 6] }]
    { iid := 5, kind := InstKind.generic 7 false, ops := [] }
    [SILValue.res 6]
    { bid := 2, nargs := 1, insts := [], term := TermInst.ret (SILValue.arg 2 0) }
    (by decide) (by decide) (by decide) (by decide) (by decide) (by decide)
    (by decide) (by decide) (by decide) (by decide)
    (fun c hc => by
      rw [List.mem_singleton] at hc
      subst hc
      exact ⟨6, rfl, by decide, by decide, by decide⟩)
    (by decide)
  exact ⟨h.1, h.2.2.1⟩

end SILModel
